import Mathlib

/-!
Verification development for the twitch-gamepad repository.

Shallow embedding of the core of the program:
* `src/command.rs`   : movement/command parser and the moderation arbiter loop
* `src/gamepad.rs`   : the input scheduler (`RunnerState`)
* `src/database.rs`  : the durable-state operations, with the sqlite tables
                       modelled as association lists
* `src/config.rs`    : `ConstructedGameInfo::is_movement_restricted`
* `src/game_runner.rs`: `SfxRequest::to_file` and one step of the sfx runner

Machine integers (`u64`) are modelled as `Nat` (no operation here can
overflow: durations are capped at 5000 by the parser and only decremented),
`chrono` instants and durations as `Int` milliseconds.
-/

namespace TwitchGamepad

/-- The `Movement` enum of `src/command.rs` (declaration order preserved;
the scheduler indexes its remaining-time array by this order). -/
inductive Movement where
  | A | B | C | X | Y | Z | TL | TR
  | Up | Down | Left | Right | Start | Select | Mode
deriving DecidableEq, Repr

/-- Enumeration of all movements, in declaration order (`Movement::iter()`). -/
def movementList : List Movement :=
  [.A, .B, .C, .X, .Y, .Z, .TL, .TR, .Up, .Down, .Left, .Right, .Start, .Select, .Mode]

/-- `MovementPacket` of `src/command.rs`; `duration` and `stagger` are in
milliseconds. -/
structure MovementPacket where
  movements : List Movement
  duration : Nat
  stagger : Nat
  blocking : Bool
deriving DecidableEq, Repr

/-- The predicate used by `MovementPacket::contains_direction`
(`src/command.rs` lines 108-121): Up, Down, Left, Right, Start and Select
count as directions. -/
def Movement.isDirection : Movement → Bool
  | .Up | .Down | .Left | .Right | .Start | .Select => true
  | _ => false

/-- `MovementPacket::contains_direction` (`src/command.rs`). -/
def MovementPacket.containsDirection (p : MovementPacket) : Bool :=
  p.movements.any Movement.isDirection

/-- A gamepad event, as recorded through the `Gamepad` trait
(`press`/`release`, `src/gamepad.rs` lines 12-15). -/
inductive GEvent where
  | press (m : Movement)
  | release (m : Movement)
deriving DecidableEq, Repr

/-- `RunnerState` of `src/gamepad.rs` (lines 121-129).  The
`movement_time_remaining` array indexed by `Movement as usize` is modelled
as a function `Movement → Nat`; the gamepad handle is replaced by the list
of events a step emits. -/
structure RunnerState where
  updateIntervalMs : Nat
  remaining : Movement → Nat
  applyNextTick : Option MovementPacket
  packetQueue : List MovementPacket
  draining : Bool

/-- `RunnerState::time_remaining_empty` (`src/gamepad.rs` lines 132-136). -/
def timeRemainingEmpty (st : RunnerState) : Bool :=
  movementList.all (fun m => st.remaining m == 0)

/-- `RunnerState::cancel_if_active` (`src/gamepad.rs` lines 138-147):
if the movement is active, zero its remaining time and release it. -/
def cancelIfActive (st : RunnerState) (m : Movement) :
    RunnerState × List GEvent × Bool :=
  if st.remaining m > 0 then
    ({ st with remaining := fun x => if x = m then 0 else st.remaining x },
     [.release m], true)
  else
    (st, [], false)

/-- Sequential `cancel_if_active` over a list of movements, accumulating
the released events and whether anything was cancelled (this is the shape
of both `cancel_directional` and the per-packet cancel loop in
`process_packet`). -/
def cancelList (st : RunnerState) (ms : List Movement) :
    RunnerState × List GEvent × Bool :=
  match ms with
  | [] => (st, [], false)
  | m :: rest =>
    let r1 := cancelIfActive st m
    let r2 := cancelList r1.1 rest
    (r2.1, r1.2.1 ++ r2.2.1, r1.2.2 || r2.2.2)

/-- `RunnerState::cancel_directional` (`src/gamepad.rs` lines 149-156).
Note: it cancels only Up, Down, Left and Right. -/
def cancelDirectional (st : RunnerState) : RunnerState × List GEvent × Bool :=
  cancelList st [.Up, .Down, .Left, .Right]

/-- `RunnerState::packet_can_run` (`src/gamepad.rs` lines 158-163). -/
def packetCanRun (st : RunnerState) (p : MovementPacket) : Bool :=
  p.movements.all (fun m => st.remaining m == 0)

/-- Press every movement of a list and set its remaining time to `dur`
(the press loops of `process_packet` and `process_tick`). -/
def pressMovements (st : RunnerState) (ms : List Movement) (dur : Nat) :
    RunnerState × List GEvent :=
  match ms with
  | [] => (st, [])
  | m :: rest =>
    let st1 := { st with remaining := fun x => if x = m then dur else st.remaining x }
    let r := pressMovements st1 rest dur
    (r.1, .press m :: r.2)

/-- The event trace of `blocking_movement` (`src/gamepad.rs` lines 86-119):
press each movement in order, then release each movement in reverse order
(the sleeps between them carry no events). -/
def blockingEvents (p : MovementPacket) : List GEvent :=
  p.movements.map GEvent.press ++ p.movements.reverse.map GEvent.release

/-- `RunnerState::process_packet` (`src/gamepad.rs` lines 165-212).
Returns the new state, the emitted events in order, and the boolean the
source returns (`true` = packet handled, `false` = caller must queue it). -/
def processPacket (st : RunnerState) (p : MovementPacket) (ticking : Bool) :
    RunnerState × List GEvent × Bool :=
  if p.blocking then
    if timeRemainingEmpty st then (st, blockingEvents p, true)
    else (st, [], false)
  else if !ticking && !st.packetQueue.isEmpty then
    (st, [], false)
  else if p.containsDirection then
    let r1 := cancelDirectional st
    let r2 := cancelList r1.1 p.movements
    if r1.2.2 || r2.2.2 then
      ({ r2.1 with applyNextTick := some p }, r1.2.1 ++ r2.2.1, true)
    else
      let r3 := pressMovements r2.1 p.movements p.duration
      (r3.1, r1.2.1 ++ r2.2.1 ++ r3.2, true)
  else if packetCanRun st p then
    let r := pressMovements st p.movements p.duration
    (r.1, r.2, true)
  else
    (st, [], false)

/-- `RunnerState::process_message` (`src/gamepad.rs` lines 214-230):
`None` marks the channel closed (start draining); a packet is processed
and queued at the back when `process_packet` returns `false`. -/
def processMessage (st : RunnerState) (msg : Option MovementPacket) :
    RunnerState × List GEvent :=
  match msg with
  | none => ({ st with draining := true }, [])
  | some p =>
    let r := processPacket st p false
    if r.2.2 then (r.1, r.2.1)
    else ({ r.1 with packetQueue := r.1.packetQueue ++ [p] }, r.2.1)

/-- The decrement loop of `RunnerState::process_tick` (`src/gamepad.rs`
lines 233-246): saturating-subtract the tick interval from every active
movement, releasing those that reach zero; also reports whether every
movement was already inactive before the tick (`all_zero`). -/
def tickDecrMovements (st : RunnerState) (ms : List Movement) (interval : Nat) :
    RunnerState × List GEvent × Bool :=
  match ms with
  | [] => (st, [], true)
  | m :: rest =>
    if st.remaining m == 0 then
      tickDecrMovements st rest interval
    else
      let newRem := st.remaining m - interval
      let st1 := { st with remaining := fun x => if x = m then newRem else st.remaining x }
      let r := tickDecrMovements st1 rest interval
      if newRem == 0 then (r.1, .release m :: r.2.1, false)
      else (r.1, r.2.1, false)

/-- The `apply_next_tick` stage of `process_tick` (`src/gamepad.rs`
lines 248-253). -/
def tickApply (st : RunnerState) : RunnerState × List GEvent :=
  match st.applyNextTick with
  | none => (st, [])
  | some p => pressMovements { st with applyNextTick := none } p.movements p.duration

/-- The queue-drain loop of `process_tick` (`src/gamepad.rs` lines 255-263):
pop packets from the front, reprocessing each with `ticking = true`, and
stop at the first one that fails (pushing it back to the front). -/
def drainList (st : RunnerState) (q : List MovementPacket) :
    RunnerState × List GEvent × List MovementPacket :=
  match q with
  | [] => (st, [], [])
  | p :: rest =>
    let r := processPacket st p true
    if r.2.2 then
      let r2 := drainList r.1 rest
      (r2.1, r.2.1 ++ r2.2.1, r2.2.2)
    else
      (r.1, r.2.1, p :: rest)

/-- `RunnerState::process_tick` (`src/gamepad.rs` lines 232-271); the final
boolean is `true` when the runner should exit (draining, idle, empty queue). -/
def processTick (st : RunnerState) : RunnerState × List GEvent × Bool :=
  let r1 := tickDecrMovements st movementList st.updateIntervalMs
  let r2 := tickApply r1.1
  let r3 :=
    if r1.2.2 then
      let d := drainList { r2.1 with packetQueue := [] } r2.1.packetQueue
      ({ d.1 with packetQueue := d.2.2 }, d.2.1)
    else (r2.1, [])
  let done := r3.1.draining && timeRemainingEmpty r3.1 && r3.1.packetQueue.isEmpty
  (r3.1, r1.2.1 ++ r2.2 ++ r3.2, done)

/-- One unit of work of the `gamepad_runner` select loop
(`src/gamepad.rs` lines 289-300): either a received packet, the channel
closing, or an interval tick. -/
inductive SchedInput where
  | pkt (p : MovementPacket)
  | close
  | tick
deriving DecidableEq, Repr

/-- One step of the `gamepad_runner` loop. -/
def stepInput (st : RunnerState) (i : SchedInput) : RunnerState × List GEvent :=
  match i with
  | .pkt p => processMessage st (some p)
  | .close => processMessage st none
  | .tick => ((processTick st).1, (processTick st).2.1)

/-- The gamepad-event trace produced by running a list of scheduler inputs. -/
def runTrace (st : RunnerState) : List SchedInput → List GEvent
  | [] => []
  | i :: rest => (stepInput st i).2 ++ runTrace (stepInput st i).1 rest

/-- The scheduler state after running a list of inputs. -/
def runState (st : RunnerState) : List SchedInput → RunnerState
  | [] => st
  | i :: rest => runState (stepInput st i).1 rest

/-- The initial state built in `gamepad_runner` (`src/gamepad.rs`
lines 278-287): 100 ms tick, all remaining times zero. -/
def initState : RunnerState :=
  { updateIntervalMs := 100
    remaining := fun _ => 0
    applyNextTick := none
    packetQueue := []
    draining := false }

/-! Command data model (`src/command.rs`). -/

/-- `AnarchyType` (`src/command.rs` lines 19-25). -/
inductive AnarchyType where
  | Anarchy | Democracy | Restricted | Streaming
deriving DecidableEq, Repr

/-- `AnarchyType::to_str` (`src/command.rs` lines 28-35). -/
def AnarchyType.toStr : AnarchyType → String
  | .Anarchy => "anarchy"
  | .Democracy => "democracy"
  | .Restricted => "restricted"
  | .Streaming => "streaming"

/-- `Privilege` (`src/command.rs` lines 48-54), ordered by its
discriminant. -/
inductive Privilege where
  | Standard | Operator | Moderator | Broadcaster
deriving DecidableEq, Repr

/-- The discriminant of `Privilege`, used for the `PartialOrd` comparisons
of the source. -/
def Privilege.toNat : Privilege → Nat
  | .Standard => 0
  | .Operator => 1
  | .Moderator => 2
  | .Broadcaster => 3

/-- `PartialCommand` (`src/command.rs` lines 125-135), the usage-hint tag
of a partially recognized command. -/
inductive UsageHint where
  | AddOperator | RemoveOperator | Block | Unblock | Game | List
  | SetCooldown | SetAnarchyMode | PlaySfx
deriving DecidableEq, Repr

/-- `Command` (`src/command.rs` lines 139-160).  `chrono` instants and
durations are modelled as `Int` milliseconds; the `Partial` variant is
named `usage` here. -/
inductive Command where
  | movement (p : MovementPacket)
  | addOperator (user : String)
  | removeOperator (user : String)
  | block (user : String) (untilTime : Option Int)
  | unblock (user : String)
  | game (name : String)
  | stop
  | usage (hint : UsageHint)
  | listBlocked
  | listOperators
  | listGames
  | printHelp
  | saveState
  | loadState
  | reset
  | setCooldown (ms : Int)
  | setAnarchyMode (m : AnarchyType)
  | printAnarchyMode
  | playSfx (name : String)
  | controls (game : Option String)
deriving DecidableEq, Repr

/-- `Message` (`src/command.rs` lines 57-62). -/
structure Message where
  command : Command
  senderId : String
  senderName : String
  privilege : Privilege
deriving DecidableEq, Repr

/-! The command parser (`src/command.rs` lines 162-280). -/

/-- `parse_movement_token` (`src/command.rs` lines 162-183).  `"mode"` is
deliberately commented out in the source and hence not parseable. -/
def parse_movement_token (token : String) : Option Movement :=
  match token with
  | "a" => some .A
  | "b" => some .B
  | "c" => some .C
  | "x" => some .X
  | "y" => some .Y
  | "z" => some .Z
  | "tl" | "lt" | "lb" => some .TL
  | "tr" | "rt" | "rb" => some .TR
  | "up" | "u" => some .Up
  | "down" | "d" => some .Down
  | "left" | "l" => some .Left
  | "right" | "r" => some .Right
  | "start" => some .Start
  | "select" => some .Select
  | _ => none

/-- Numeric value of a digit list, most significant first. -/
def digitsToNat (cs : List Char) : Nat :=
  cs.foldl (fun acc c => acc * 10 + (c.toNat - 48)) 0

/-- Whether every character is an ASCII digit. -/
def allDigits (cs : List Char) : Bool :=
  cs.all Char.isDigit

/-- Strip one optional leading sign; returns (isNegative, rest).
Codepoint 45 is the minus sign, 43 the plus sign. -/
def splitSign : List Char → Bool × List Char
  | [] => (false, [])
  | c :: rest =>
    if c.toNat = 45 then (true, rest)
    else if c.toNat = 43 then (false, rest)
    else (false, c :: rest)

/-- Parse an unsigned decimal literal `digits`, `digits.digits`,
`digits.` or `.digits` into (numerator, number of fraction digits), so the
value is numerator / 10^k.  Codepoint 46 is the decimal point. -/
def parseDecimalCore (cs : List Char) : Option (Nat × Nat) :=
  match cs.span (fun c => !(c.toNat == 46)) with
  | (intPart, []) =>
    if intPart ≠ [] ∧ allDigits intPart then some (digitsToNat intPart, 0) else none
  | (intPart, _ :: fracPart) =>
    if (intPart ≠ [] ∨ fracPart ≠ []) ∧ allDigits intPart ∧ allDigits fracPart then
      some (digitsToNat intPart * 10 ^ fracPart.length + digitsToNat fracPart,
            fracPart.length)
    else none

/-- Per-token lowercasing (`str::to_lowercase`; the chat tokens involved
are ASCII). -/
def toLowerStr (s : String) : String :=
  String.mk (s.data.map Char.toLower)

/-- An IEEE-754 binary64 value, as produced by `str::parse::<f64>`:
NaN, a signed infinity, or a signed finite value `(-1)^neg · m · 2^e`
(the significand/exponent pair is kept unnormalized; only its rational
value matters to the comparisons and conversions below). -/
inductive F64 where
  | nan
  | inf (neg : Bool)
  | finite (neg : Bool) (m : Nat) (e : Int)
deriving DecidableEq, Repr

/-- Bit length of a natural number (fuel-indexed structural recursion so
the kernel can evaluate it): 2^(bitLen n − 1) ≤ n < 2^(bitLen n) for
n > 0. -/
def bitLenAux : Nat → Nat → Nat
  | 0, _ => 0
  | fuel + 1, n => if n = 0 then 0 else bitLenAux fuel (n / 2) + 1

/-- Bit length with sufficient fuel. -/
def bitLen (n : Nat) : Nat :=
  bitLenAux n n

/-- Decide `num / den ≥ 2^k` for positive naturals and an integer `k`. -/
def gePow2 (num den : Nat) (k : Int) : Bool :=
  if 0 ≤ k then decide (den * 2 ^ k.toNat ≤ num)
  else decide (den ≤ num * 2 ^ (-k).toNat)

/-- Floor of the base-2 logarithm of the positive rational num/den. -/
def ratLog2 (num den : Nat) : Int :=
  let k : Int := (bitLen num : Int) - (bitLen den : Int)
  if gePow2 num den k then k else k - 1

/-- Round the quotient a/b to the nearest integer, ties to even (the
IEEE-754 default rounding used by the Rust float parser and float
multiplication). -/
def rndDiv (a b : Nat) : Nat :=
  let q := a / b
  let r := a % b
  if 2 * r < b then q
  else if b < 2 * r then q + 1
  else if q % 2 = 0 then q else q + 1

/-- Round the positive rational num/den to the binary64 grid: choose the
exponent `e = max(⌊log2 r⌋ − 52, −1074)` (53-bit significand, subnormal
cutoff at 2^−1074) and round-half-even the quotient at granularity 2^e. -/
def roundPosRatCore (num den : Nat) : Nat × Int :=
  let e : Int := max (ratLog2 num den - 52) (-1074)
  let q := if 0 ≤ e then rndDiv num (den * 2 ^ e.toNat)
           else rndDiv (num * 2 ^ (-e).toNat) den
  (q, e)

/-- Decide `m1·2^e1 ≤ m2·2^e2`. -/
def dyadicLe (m1 : Nat) (e1 : Int) (m2 : Nat) (e2 : Int) : Bool :=
  if e2 ≤ e1 then decide (m1 * 2 ^ (e1 - e2).toNat ≤ m2)
  else decide (m1 ≤ m2 * 2 ^ (e2 - e1).toNat)

/-- Correctly-rounded conversion of a signed rational to binary64:
rounded values of magnitude ≥ 2^1024 overflow to infinity (the tie at
2^1024 − 2^970 already rounds up to 2^53·2^971 = 2^1024). -/
def roundF64 (neg : Bool) (num den : Nat) : F64 :=
  if num = 0 then .finite neg 0 0
  else
    let qe := roundPosRatCore num den
    if dyadicLe (2 ^ 1024) 0 qe.1 qe.2 then .inf neg
    else .finite neg qe.1 qe.2

/-- Exponent part of the float grammar: `('e'|'E') Sign? Digits` (the
marker itself is stripped by the caller). -/
def parseExp (cs : List Char) : Option Int :=
  let sr := splitSign cs
  if sr.2 ≠ [] ∧ allDigits sr.2 = true then
    some (if sr.1 then -(digitsToNat sr.2 : Int) else (digitsToNat sr.2 : Int))
  else none

/-- Mantissa-with-exponent of the Rust float grammar
`Number ::= (Digits '.'? Digits? | '.' Digits) Exp?`, split at the first
`e`/`E` (codepoints 101/69); the result (n, E) denotes n·10^E. -/
def parseMantissaExp (cs : List Char) : Option (Nat × Int) :=
  match cs.span (fun c => !(c.toNat == 101 || c.toNat == 69)) with
  | (mant, []) => (parseDecimalCore mant).map (fun nk => (nk.1, -(nk.2 : Int)))
  | (mant, _ :: exp) =>
    match parseDecimalCore mant, parseExp exp with
    | some nk, some ex => some (nk.1, ex - (nk.2 : Int))
    | _, _ => none

/-- `str::parse::<f64>` (the `FromStr` grammar
`Sign? ('inf' | 'infinity' | 'nan' | Number)`, case-insensitive special
values, correctly-rounded decimal-to-binary64 conversion with
round-half-even). -/
def parseF64 (s : String) : Option F64 :=
  let sr := splitSign s.data
  let low := toLowerStr (String.mk sr.2)
  if low = "inf" ∨ low = "infinity" then some (.inf sr.1)
  else if low = "nan" then some .nan
  else
    (parseMantissaExp sr.2).map (fun me =>
      if me.1 = 0 then F64.finite sr.1 0 0
      else if 0 ≤ me.2 then roundF64 sr.1 (me.1 * 10 ^ me.2.toNat) 1
      else roundF64 sr.1 me.1 (10 ^ (-me.2).toNat))

/-- The IEEE comparison `sec <= 5f64`: false for NaN, true for −∞ and
every negative value. -/
def f64LeFive : F64 → Bool
  | .nan => false
  | .inf neg => neg
  | .finite neg m e => if neg then true else dyadicLe m e 5 0

/-- The IEEE comparison `sec >= 0f64`: false for NaN, true for −0.0. -/
def f64Ge0 : F64 → Bool
  | .nan => false
  | .inf neg => !neg
  | .finite neg m _ => !neg || m == 0

/-- The f64 multiplication `sec * 1000f64`: the exact product re-rounded
to binary64 (round-half-even). -/
def f64Mul1000 : F64 → F64
  | .nan => .nan
  | .inf neg => .inf neg
  | .finite neg m e =>
    if m = 0 then .finite neg 0 0
    else if 0 ≤ e then roundF64 neg (m * 1000 * 2 ^ e.toNat) 1
    else roundF64 neg (m * 1000) (2 ^ (-e).toNat)

/-- The Rust cast `as u64`: saturating, truncating toward zero; NaN casts
to 0, negative values (including −0.0) to 0, +∞ and values ≥ 2^64 to
u64::MAX. -/
def f64ToU64 : F64 → Nat
  | .nan => 0
  | .inf neg => if neg then 0 else 2 ^ 64 - 1
  | .finite neg m e =>
    if neg then 0
    else
      let v := if 0 ≤ e then m * 2 ^ e.toNat else m / 2 ^ (-e).toNat
      min v (2 ^ 64 - 1)

/-- The duration pipeline of `parse_movement` (`src/command.rs` lines
196-201): `str::parse::<f64>(token).ok()`, keep the value if
`sec <= 5f64` and then if `sec >= 0f64`, multiply by `1000f64` and cast
`as u64`. -/
def movementDurationMs (token : String) : Option Nat :=
  (parseF64 token).bind (fun v =>
    if f64LeFive v = true then
      if f64Ge0 v = true then some (f64ToU64 (f64Mul1000 v))
      else none
    else none)

/-- The token loop of `parse_movement` (`src/command.rs` lines 190-205):
movement tokens accumulate; a non-movement token is only allowed in last
position, where it replaces the default 100 ms duration with its parse
result; a non-movement token anywhere else rejects the line. -/
def pmAux : List String → Option (List Movement × Option Nat)
  | [] => some ([], some 100)
  | t :: rest =>
    match parse_movement_token t, rest with
    | some m, _ => (pmAux rest).map (fun r => (m :: r.1, r.2))
    | none, [] => some ([], movementDurationMs t)
    | none, _ :: _ => none

/-- `parse_movement` (`src/command.rs` lines 185-219). -/
def parse_movement (tokens : List String) : Option Command :=
  if tokens.isEmpty then none
  else
    match pmAux tokens with
    | none => none
    | some (ms, dur) =>
      if ms.isEmpty then none
      else dur.map (fun d => Command.movement ⟨ms, d, 0, false⟩)

/-- Milliseconds for a duration unit name: s, m or h (codepoints 115, 109,
104). -/
def unitMs (u : List Char) : Option Int :=
  if u = [Char.ofNat 115] then some 1000
  else if u = [Char.ofNat 109] then some 60000
  else if u = [Char.ofNat 104] then some 3600000
  else none

/-- Modelled from the spec: the external `duration_str` crate used by
`parse_command` for `tp block` and `tp cooldown` durations is not part of
this repository.  Per the spec it accepts forms like `10s`, `1h3m` and
bare numeric seconds; the result is in milliseconds.  No claim depends on
its exact grammar. -/
def parseDurParts (cs : List Char) (fuel : Nat) : Option Int :=
  match fuel with
  | 0 => none
  | fuel' + 1 =>
    match cs.span Char.isDigit with
    | ([], _) => none
    | (ds, rest) =>
      let n : Int := digitsToNat ds
      match rest with
      | [] => some (n * 1000)
      | u =>
        match u.span (fun c => !c.isDigit) with
        | (us, rest2) =>
          match unitMs us with
          | some mult =>
            if rest2 = [] then some (n * mult)
            else (parseDurParts rest2 fuel').map (fun r => n * mult + r)
          | none => none

/-- Modelled from the spec: entry point of the `duration_str` model. -/
def parseDurationStr (s : String) : Option Int :=
  if s.data = [] then none else parseDurParts s.data (s.data.length + 1)

/-- The Twitch chat deduplication marker U+E0000 dropped by
`parse_command`. -/
def dedupToken : String :=
  String.mk [Char.ofNat 917504]

/-- Whitespace splitting in the manner of Rust `split_whitespace`
(no empty tokens), written as structural recursion over the character
list; `acc` holds the characters of the current token in reverse. -/
def splitWs : List Char → List Char → List String
  | [], acc => if acc = [] then [] else [String.mk acc.reverse]
  | c :: rest, acc =>
    if c.isWhitespace then
      if acc = [] then splitWs rest []
      else String.mk acc.reverse :: splitWs rest []
    else splitWs rest (c :: acc)

/-- The preprocessing of `parse_command` (`src/command.rs` lines 222-225):
split on whitespace (which never yields empty tokens), lowercase each
token, and drop the U+E0000 dedup marker. -/
def preprocessTokens (input : String) : List String :=
  ((splitWs input.data []).map toLowerStr).filter (fun t => t ≠ dedupToken)

/-- `parse_command` (`src/command.rs` lines 221-280).  The source stamps
`tp block user <duration>` with `chrono::Utc::now() + duration`; the
current instant is passed here as the explicit parameter `now`. -/
def parse_command (now : Int) (input : String) : Option Command :=
  let tokens := preprocessTokens input
  match parse_movement tokens with
  | some cmd => some cmd
  | none =>
    match tokens with
    | ["tp", "block"] => some (.usage .Block)
    | ["tp", "block", target] => some (.block target none)
    | ["tp", "block", target, dur] =>
      match parseDurationStr dur with
      | some d => some (.block target (some (now + d)))
      | none => some (.usage .Block)
    | ["tp", "unblock"] => some (.usage .Unblock)
    | ["tp", "unblock", target] => some (.unblock target)
    | ["tp", "op"] => some (.usage .AddOperator)
    | ["tp", "op", target] => some (.addOperator target)
    | ["tp", "deop"] => some (.usage .RemoveOperator)
    | ["tp", "deop", target] => some (.removeOperator target)
    | ["tp", "games"] => some .listGames
    | ["tp", "game"] | ["tp", "switch"] | ["tp", "start"] => some (.usage .Game)
    | "tp" :: "game" :: g | "tp" :: "switch" :: g | "tp" :: "start" :: g =>
      some (.game (String.intercalate " " g))
    | ["tp", "stop"] => some .stop
    | ["tp", "list"] => some (.usage .List)
    | ["tp", "list", "games"] => some .listGames
    | ["tp", "help"] | ["tp", "commands"] => some .printHelp
    | ["tp", "list", "block"] | ["tp", "list", "blocks"] | ["tp", "list", "blocked"] =>
      some .listBlocked
    | ["tp", "list", "ops"] | ["tp", "list", "operators"] | ["tp", "list", "op"] =>
      some .listOperators
    | ["tp", "save"] => some .saveState
    | ["tp", "load"] => some .loadState
    | ["tp", "reset"] => some .reset
    | ["tp", "mode"] => some .printAnarchyMode
    | ["tp", "mode", "anarchy"] => some (.setAnarchyMode .Anarchy)
    | ["tp", "mode", "democracy"] => some (.setAnarchyMode .Democracy)
    | ["tp", "mode", "restricted"] => some (.setAnarchyMode .Restricted)
    | ["tp", "mode", "stream"] | ["tp", "mode", "streaming"] =>
      some (.setAnarchyMode .Streaming)
    | ["tp", "mode", _] => some (.usage .SetAnarchyMode)
    | ["tp", "cooldown"] => some (.usage .SetCooldown)
    | ["tp", "cooldown", cd] =>
      match parseDurationStr cd with
      | some d => some (.setCooldown d)
      | none => some (.usage .SetCooldown)
    | ["tp", "sfx"] => some (.usage .PlaySfx)
    | ["tp", "sfx", sfx] => some (.playSfx sfx)
    | ["tp", "controls"] => some (.controls none)
    | "tp" :: "controls" :: g => some (.controls (some (String.intercalate " " g)))
    | _ => none

/-! The durable state (`src/database.rs`).  The sqlite tables are
modelled as association lists keyed by the column the source declares
unique; `insert or replace` becomes an in-place update (or append when
the key is new), which agrees with sqlite on unique-keyed tables up to
row order. -/

/-- Association-list lookup (a `select ... where key=?1` returning one
optional row). -/
def alookup {α : Type} : List (String × α) → String → Option α
  | [], _ => none
  | kv :: rest, k => if kv.1 = k then some kv.2 else alookup rest k

/-- Association-list `insert or replace` on a unique-keyed table. -/
def aupsert {α : Type} : List (String × α) → String → α → List (String × α)
  | [], k, v => [(k, v)]
  | kv :: rest, k, v => if kv.1 = k then (k, v) :: rest else kv :: aupsert rest k v

/-- Association-list `delete ... where key=?1`. -/
def aremove {α : Type} (l : List (String × α)) (k : String) : List (String × α) :=
  l.filter (fun kv => decide (kv.1 ≠ k))

/-- The five tables created by `init_db` (`src/database.rs` lines 13-59):
users (twitch_id → name), operators (twitch_id), blocked_users
(twitch_id → optional unblock_time), last_command_time (twitch_id →
time), config_kv (key → value). -/
structure Db where
  users : List (String × String)
  operators : List String
  blockedUsers : List (String × Option Int)
  lastCommandTime : List (String × Int)
  configKv : List (String × String)
deriving DecidableEq, Repr

/-- `set_kv` (`src/database.rs` lines 74-80). -/
def set_kv (db : Db) (key value : String) : Db :=
  { db with configKv := aupsert db.configKv key value }

/-- `update_user` (`src/database.rs` lines 119-125). -/
def update_user (db : Db) (id name : String) : Db :=
  { db with users := aupsert db.users id name }

/-- `test_and_set_cooldown_lapsed` (`src/database.rs` lines 127-153):
within one transaction, read the sender's last-command time, compute
whether `now ≥ last + cooldown` (absent record counts as lapsed), and
unconditionally store `now`.  The source calls `chrono::Utc::now()`
twice a few microseconds apart; both reads are modelled as the single
parameter `now`. -/
def test_and_set_cooldown_lapsed (db : Db) (id : String) (cooldown now : Int) :
    Db × Bool :=
  let lapsed :=
    match alookup db.lastCommandTime id with
    | some last => decide (now ≥ last + cooldown)
    | none => true
  ({ db with lastCommandTime := aupsert db.lastCommandTime id now }, lapsed)

/-- `is_operator` (`src/database.rs` lines 155-163). -/
def is_operator (db : Db) (id : String) : Bool :=
  db.operators.any (fun x => x == id)

/-- `is_blocked` (`src/database.rs` lines 165-192): no record → not
blocked; a record whose `unblock_time` is present and ≤ now → delete the
record and report not blocked; otherwise (future or absent
`unblock_time`) → blocked, record untouched. -/
def is_blocked (db : Db) (id : String) (now : Int) : Db × Bool :=
  match alookup db.blockedUsers id with
  | none => (db, false)
  | some (some t) =>
    if t ≤ now then ({ db with blockedUsers := aremove db.blockedUsers id }, false)
    else (db, true)
  | some none => (db, true)

/-- `get_user_id_from_name` (`src/database.rs` lines 194-201). -/
def get_user_id_from_name (db : Db) (name : String) : Option String :=
  (db.users.find? (fun kv => kv.2 == name)).map (fun kv => kv.1)

/-- `block_user` (`src/database.rs` lines 203-221); `false` when the name
is unknown. -/
def block_user (db : Db) (name : String) (untilTime : Option Int) : Db × Bool :=
  match get_user_id_from_name db name with
  | some tid => ({ db with blockedUsers := aupsert db.blockedUsers tid untilTime }, true)
  | none => (db, false)

/-- `unblock_user` (`src/database.rs` lines 223-237). -/
def unblock_user (db : Db) (name : String) : Db :=
  match get_user_id_from_name db name with
  | some tid => { db with blockedUsers := aremove db.blockedUsers tid }
  | none => db

/-- `op_user` (`src/database.rs` lines 247-261); `insert or replace` on
the single-column unique table is a deduplicating insert. -/
def op_user (db : Db) (name : String) : Db × Bool :=
  match get_user_id_from_name db name with
  | some tid =>
    ({ db with operators :=
        if db.operators.any (fun x => x == tid) then db.operators
        else db.operators ++ [tid] }, true)
  | none => (db, false)

/-- `deop_user` (`src/database.rs` lines 263-276). -/
def deop_user (db : Db) (name : String) : Db :=
  match get_user_id_from_name db name with
  | some tid => { db with operators := db.operators.filter (fun x => !(x == tid)) }
  | none => db

/-- `list_op_users` (`src/database.rs` lines 278-284): names of users
joined with the operators table. -/
def list_op_users (db : Db) : List String :=
  (db.users.filter (fun kv => db.operators.any (fun o => o == kv.1))).map (fun kv => kv.2)

/-- `list_blocked_users` (`src/database.rs` lines 239-245). -/
def list_blocked_users (db : Db) : List String :=
  (db.users.filter (fun kv => db.blockedUsers.any (fun b => b.1 == kv.1))).map
    (fun kv => kv.2)

/-! The moderation and mode arbiter: the per-message body of
`run_commands` (`src/command.rs` lines 337-801). -/

/-- `GameCommand` (`src/config.rs` lines 33-36). -/
structure GameCommand where
  command : String
  args : List String
deriving DecidableEq, Repr

/-- `ConstructedGameInfo` (`src/config.rs` lines 39-44); the
`restricted_inputs` hash set is modelled as a list. -/
structure ConstructedGameInfo where
  name : String
  command : GameCommand
  restrictedInputs : List Movement
  controlsMsg : Option String
deriving DecidableEq, Repr

/-- `ConstructedGameInfo::is_movement_restricted` (`src/config.rs`
lines 124-134). -/
def is_movement_restricted (g : ConstructedGameInfo) (packet : MovementPacket) : Bool :=
  packet.movements.any (fun m => g.restrictedInputs.any (fun x => decide (x = m)))

/-- `GameRunner` commands (`src/game_runner.rs` lines 11-14). -/
inductive GameRunnerCmd where
  | switchTo (c : GameCommand)
  | stop
deriving DecidableEq, Repr

/-- `SfxRequest` (`src/game_runner.rs` lines 120-124). -/
inductive SfxRequest where
  | subEvent (n : Nat)
  | named (s : String)
  | enable (b : Bool)
deriving DecidableEq, Repr

/-- One send on one of the three outgoing channels of `run_commands`:
the gamepad packet channel, the game-runner channel, or the sfx channel. -/
inductive Effect where
  | gamepad (p : MovementPacket)
  | gameRunner (c : GameRunnerCmd)
  | sfx (r : SfxRequest)
deriving DecidableEq, Repr

/-- The environment `run_commands` captures from the configuration:
`config.game_command_list()` and whether an sfx channel exists
(`sfx_player_tx.is_some()`). -/
structure ConfigM where
  gameCommands : List (String × ConstructedGameInfo)
  sfxConfigured : Bool
deriving DecidableEq, Repr

/-- The mutable locals of `run_commands`: `anarchy_mode`, `cooldown`
(milliseconds), `current_game` and the database connection. -/
structure CmdState where
  mode : AnarchyType
  cooldown : Int
  currentGame : Option ConstructedGameInfo
  db : Db
deriving DecidableEq, Repr

/-- The outcome of processing one message: new state, sends on the
outgoing channels in order, and the values sent on the reply channel
(each `reply_tx.send` appends one element). -/
structure HandleResult where
  state : CmdState
  effects : List Effect
  replies : List (Option String)
deriving DecidableEq, Repr

/-- The fixed permission-denial reply string of `run_commands`. -/
def permissionDenied : String :=
  "You don\x27t have permission to do that"

/-- Whether the current game declares one of the packet's movements
restricted (`current_game.is_some_and(|game| game.is_movement_restricted(&packet))`). -/
def gameRestricts (st : CmdState) (packet : MovementPacket) : Bool :=
  match st.currentGame with
  | some g => is_movement_restricted g packet
  | none => false

/-- The usage strings of the `Partial` arm (`src/command.rs` lines
610-629). -/
def usageMsg : UsageHint → String
  | .AddOperator => "Usage: tp op <user>"
  | .RemoveOperator => "Usage: tp deop <user>"
  | .Block => "Usage: tp block <user> [optional: duration]"
  | .Unblock => "Usage: tp unblock <user>"
  | .Game => "Usage: tp game <game-name>"
  | .List => "Usage: tp list games | blocked | ops"
  | .SetCooldown => "Usage: tp cooldown <duration>"
  | .SetAnarchyMode => "Usage: tp mode <anarchy | democracy | restricted | streaming>"
  | .PlaySfx => "Usage: tp sfx <sound effect>"

/-- The command list built by the `PrintHelp` arm (`src/command.rs`
lines 648-669), filtered by the caller's (possibly elevated) privilege. -/
def helpEntries (priv : Privilege) : List String :=
  ["Move with standard controller buttons (up, down, a, b, tl, tr, etc.)"]
  ++ (if priv.toNat ≥ Privilege.Operator.toNat then
      ["tp save/load - save or load state", "tp reset - reset game"] else [])
  ++ (if priv.toNat ≥ Privilege.Moderator.toNat then
      ["tp block/unblock - block or unblock a user",
       "tp op/deop - promote user to operator",
       "tp list - list games/ops/blocked users",
       "tp game - switch game",
       "tp mode - set anarchy mode",
       "tp cooldown - set command cooldown"] else [])
  ++ (if priv.toNat ≥ Privilege.Broadcaster.toNat then
      ["tp sfx - play sound effects"] else [])

/-- The command dispatch of `run_commands` (`src/command.rs` lines
378-801): the big `match msg.command` after the gates have passed. -/
def dispatch (cfg : ConfigM) (st : CmdState) (msg : Message) (now : Int) : HandleResult :=
  match msg.command with
  | .setAnarchyMode am =>
    if msg.privilege.toNat ≥ Privilege.Moderator.toNat then
      let sfxOff : List Effect :=
        if st.mode = .Streaming ∧ am ≠ .Streaming ∧ cfg.sfxConfigured = true then
          [.sfx (.enable false)]
        else []
      let db1 := set_kv st.db "anarchy_mode" am.toStr
      if am = .Streaming then
        { state := { st with mode := am, currentGame := none, db := db1 }
          effects := sfxOff ++ [.gameRunner .stop]
            ++ (if cfg.sfxConfigured = true then [.sfx (.enable true)] else [])
          replies := [some ("Set mode to " ++ am.toStr)] }
      else
        { state := { st with mode := am, db := db1 }
          effects := sfxOff
          replies := [some ("Set mode to " ++ am.toStr)] }
    else
      { state := st, effects := [], replies := [some permissionDenied] }
  | .printAnarchyMode =>
    { state := st, effects := []
      replies := [some ("Current mode is " ++ st.mode.toStr)] }
  | .setCooldown cd =>
    if msg.privilege.toNat ≥ Privilege.Moderator.toNat then
      { state := { st with cooldown := cd, db := set_kv st.db "cooldown" (toString cd) }
        effects := []
        replies := [some ("Set cooldown to " ++ toString (cd / 1000) ++ " seconds")] }
    else
      { state := st, effects := [], replies := [some permissionDenied] }
  | .movement packet =>
    if st.mode ≠ .Restricted ∧ gameRestricts st packet = true then
      { state := st, effects := [], replies := [none] }
    else if st.mode = .Streaming then
      { state := st, effects := [], replies := [none] }
    else if st.mode = .Anarchy then
      { state := st, effects := [.gamepad packet], replies := [none] }
    else
      let r := is_blocked st.db msg.senderId now
      if r.2 then
        { state := { st with db := r.1 }, effects := [], replies := [none] }
      else
        { state := { st with db := r.1 }, effects := [.gamepad packet], replies := [none] }
  | .addOperator user =>
    if msg.privilege.toNat ≥ Privilege.Moderator.toNat then
      { state := { st with db := (op_user st.db user).1 }
        effects := []
        replies := [some ("Added " ++ user ++ " as operator")] }
    else
      { state := st, effects := [], replies := [some permissionDenied] }
  | .removeOperator user =>
    if msg.privilege.toNat ≥ Privilege.Moderator.toNat then
      { state := { st with db := deop_user st.db user }
        effects := []
        replies := [some ("Removed " ++ user ++ " as operator")] }
    else
      { state := st, effects := [], replies := [some permissionDenied] }
  | .block user untilTime =>
    if msg.privilege.toNat ≥ Privilege.Moderator.toNat then
      let r := block_user st.db user untilTime
      let txt :=
        if r.2 then
          "Blocked " ++ user ++ " " ++
            (match untilTime with
             | some t => "until " ++ toString t
             | none => "forever")
        else
          "Could not find user " ++ user ++ ", they probably haven\x27t played"
      { state := { st with db := r.1 }, effects := [], replies := [some txt] }
    else
      { state := st, effects := [], replies := [some permissionDenied] }
  | .unblock user =>
    if msg.privilege.toNat ≥ Privilege.Moderator.toNat then
      { state := { st with db := unblock_user st.db user }
        effects := []
        replies := [some ("Unblocked " ++ user)] }
    else
      { state := st, effects := [], replies := [some permissionDenied] }
  | .game g =>
    if st.mode = .Streaming then
      { state := st, effects := []
        replies := [some "Cannot start game in streaming mode, change mode first"] }
    else if msg.privilege.toNat ≥ Privilege.Moderator.toNat then
      match alookup cfg.gameCommands g with
      | some gi =>
        { state := { st with currentGame := some gi }
          effects := [.gameRunner (.switchTo gi.command)]
          replies := [none] }
      | none =>
        { state := st, effects := []
          replies := [some ("No game " ++ g ++ " found, see full list with \"tp games\"")] }
    else
      { state := st, effects := [], replies := [some permissionDenied] }
  | .stop =>
    if msg.privilege.toNat ≥ Privilege.Moderator.toNat then
      { state := { st with currentGame := none }
        effects := [.gameRunner .stop]
        replies := [none] }
    else
      { state := st, effects := [], replies := [some permissionDenied] }
  | .usage hint =>
    { state := st, effects := [], replies := [some (usageMsg hint)] }
  | .listGames =>
    { state := st, effects := []
      replies := [some (String.intercalate ", " (cfg.gameCommands.map (fun kv => kv.1)))] }
  | .listOperators =>
    { state := st, effects := []
      replies := [some (String.intercalate ", " (list_op_users st.db))] }
  | .listBlocked =>
    { state := st, effects := []
      replies := [some (String.intercalate ", " (list_blocked_users st.db))] }
  | .printHelp =>
    { state := st, effects := []
      replies := [some (String.intercalate ", " (helpEntries msg.privilege))] }
  | .saveState =>
    if msg.privilege.toNat ≥ Privilege.Operator.toNat then
      { state := st
        effects := [.gamepad ⟨[.Mode, .A], 100, 100, true⟩]
        replies := [some "Saved game state"] }
    else
      { state := st, effects := [], replies := [some permissionDenied] }
  | .loadState =>
    if msg.privilege.toNat ≥ Privilege.Operator.toNat then
      { state := st
        effects := [.gamepad ⟨[.Mode, .B], 100, 100, true⟩]
        replies := [some "Loaded game state"] }
    else
      { state := st, effects := [], replies := [some permissionDenied] }
  | .reset =>
    if msg.privilege.toNat ≥ Privilege.Operator.toNat then
      { state := st
        effects := [.gamepad ⟨[.Mode, .X], 100, 100, true⟩]
        replies := [some "Reset current game"] }
    else
      { state := st, effects := [], replies := [some permissionDenied] }
  | .playSfx sfx =>
    if msg.privilege.toNat ≥ Privilege.Broadcaster.toNat then
      { state := st
        effects := if cfg.sfxConfigured = true then [.sfx (.named sfx)] else []
        replies := [none] }
    else
      { state := st, effects := [], replies := [some permissionDenied] }
  | .controls gameArg =>
    let game :=
      match gameArg with
      | some x => alookup cfg.gameCommands x
      | none => st.currentGame
    let txt :=
      match game with
      | some g =>
        match g.controlsMsg with
        | some m => g.name ++ " controls: " ++ m
        | none => g.name ++ " has no specific controls"
      | none =>
        if gameArg.isNone then "No game is being played currently"
        else "No game of that name found"
    { state := st, effects := [], replies := [some txt] }

/-- The operator elevation of `run_commands` (`src/command.rs` lines
346-358). -/
def elevate (db : Db) (msg : Message) : Message :=
  if msg.privilege.toNat < Privilege.Operator.toNat ∧ is_operator db msg.senderId = true
  then { msg with privilege := .Operator }
  else msg

/-- One iteration of the `run_commands` receive loop (`src/command.rs`
lines 337-801): upsert the sender into `users`, elevate to Operator if
listed, apply the Restricted gate and the Democracy cooldown gate
(non-Operator+ only; each rejection replies `None`), then dispatch. -/
def handleMessage (cfg : ConfigM) (st : CmdState) (msg0 : Message) (now : Int) :
    HandleResult :=
  let db0 := update_user st.db msg0.senderId msg0.senderName
  let msg := elevate db0 msg0
  let st0 := { st with db := db0 }
  if msg.privilege.toNat < Privilege.Operator.toNat ∧ st.mode = .Restricted then
    { state := st0, effects := [], replies := [none] }
  else if msg.privilege.toNat < Privilege.Operator.toNat ∧ st.mode = .Democracy ∧
      st.cooldown ≠ 0 then
    let r := test_and_set_cooldown_lapsed db0 msg.senderId st.cooldown now
    if r.2 then dispatch cfg { st0 with db := r.1 } msg now
    else { state := { st0 with db := r.1 }, effects := [], replies := [none] }
  else
    dispatch cfg st0 msg now

/-! The sound-effect dispatcher (`src/game_runner.rs` lines 119-187). -/

/-- `SoundEffectConfig` (`src/config.rs` lines 71-77); the two `BTreeMap`s
are modelled as association lists, `sub_events` sorted by strictly
ascending threshold (the `BTreeMap` key invariant). -/
structure SoundEffectConfig where
  command : String
  sounds : List (String × String)
  subEvents : List (Nat × String)
deriving DecidableEq, Repr

/-- `cfg.sub_events.range(..=count).next_back()` of `SfxRequest::to_file`:
the last entry of the sorted map whose threshold is ≤ count. -/
def pickSubEvent (subEvents : List (Nat × String)) (n : Nat) : Option (Nat × String) :=
  (subEvents.filter (fun kv => decide (kv.1 ≤ n))).getLast?

/-- Lookup in the `sounds` map (`cfg.sounds.get`). -/
def soundsGet (sounds : List (String × String)) (name : String) : Option String :=
  (sounds.find? (fun kv => kv.1 == name)).map (fun kv => kv.2)

/-- `SfxRequest::to_file` (`src/game_runner.rs` lines 126-138). -/
def to_file (req : SfxRequest) (cfg : SoundEffectConfig) : Option String :=
  match req with
  | .subEvent count => (pickSubEvent cfg.subEvents count).bind
      (fun kv => soundsGet cfg.sounds kv.2)
  | .named sfx => soundsGet cfg.sounds sfx
  | .enable _ => none

/-- One iteration of `sound_effect_runner` (`src/game_runner.rs` lines
164-184): `Enable` updates the flag; otherwise a resolved file is spawned
only while enabled; an unresolved request is dropped with a warning.
Returns (new enabled flag, file spawned if any). -/
def sfxStep (cfg : SoundEffectConfig) (enabled : Bool) (req : SfxRequest) :
    Bool × Option String :=
  match req with
  | .enable b => (b, none)
  | _ =>
    match to_file req cfg with
    | some file => if enabled then (enabled, some file) else (enabled, none)
    | none => (enabled, none)

/-- The privilege each guarded command arm of `run_commands` requires
(the `msg.privilege >= ...` threshold of its `if`); commands without a
privilege guard map to `none`. -/
def requiredPrivilege : Command → Option Privilege
  | .setAnarchyMode _ => some .Moderator
  | .setCooldown _ => some .Moderator
  | .block _ _ => some .Moderator
  | .unblock _ => some .Moderator
  | .addOperator _ => some .Moderator
  | .removeOperator _ => some .Moderator
  | .game _ => some .Moderator
  | .stop => some .Moderator
  | .saveState => some .Operator
  | .loadState => some .Operator
  | .reset => some .Operator
  | .playSfx _ => some .Broadcaster
  | _ => none

/-! Helper lemmas about the cancel loops of `process_packet`. -/

theorem cancelIfActive_remaining_ne (st : RunnerState) (m x : Movement) (h : x ≠ m) :
    (cancelIfActive st m).1.remaining x = st.remaining x := by
  unfold cancelIfActive
  split <;> simp [h]

theorem cancelIfActive_events_of_active (st : RunnerState) (m : Movement)
    (h : st.remaining m > 0) :
    (cancelIfActive st m).2.1 = [.release m] ∧ (cancelIfActive st m).2.2 = true := by
  unfold cancelIfActive
  split
  · exact ⟨rfl, rfl⟩
  · omega

theorem cancelList_remaining_notmem (ms : List Movement) (st : RunnerState) (x : Movement)
    (h : x ∉ ms) : (cancelList st ms).1.remaining x = st.remaining x := by
  induction ms generalizing st with
  | nil => rfl
  | cons m rest ih =>
    rw [List.mem_cons, not_or] at h
    simp only [cancelList]
    rw [ih _ h.2, cancelIfActive_remaining_ne st m x h.1]

theorem cancelList_release_mem (ms : List Movement) (st : RunnerState) (d : Movement)
    (hmem : d ∈ ms) (hact : st.remaining d > 0) :
    GEvent.release d ∈ (cancelList st ms).2.1 := by
  induction ms generalizing st with
  | nil => cases hmem
  | cons m rest ih =>
    simp only [cancelList, List.mem_append]
    by_cases hdm : d = m
    · left
      subst hdm
      rw [(cancelIfActive_events_of_active st d hact).1]
      exact List.mem_singleton.mpr rfl
    · right
      rcases List.mem_cons.mp hmem with h | h
      · exact absurd h hdm
      · exact ih _ h (by rw [cancelIfActive_remaining_ne st m d hdm]; exact hact)

theorem cancelList_flag (ms : List Movement) (st : RunnerState) (d : Movement)
    (hmem : d ∈ ms) (hact : st.remaining d > 0) :
    (cancelList st ms).2.2 = true := by
  induction ms generalizing st with
  | nil => cases hmem
  | cons m rest ih =>
    simp only [cancelList, Bool.or_eq_true]
    by_cases hdm : d = m
    · left
      subst hdm
      exact (cancelIfActive_events_of_active st d hact).2
    · right
      rcases List.mem_cons.mp hmem with h | h
      · exact absurd h hdm
      · exact ih _ h (by rw [cancelIfActive_remaining_ne st m d hdm]; exact hact)

theorem cancelList_only_releases (ms : List Movement) (st : RunnerState) (e : GEvent)
    (he : e ∈ (cancelList st ms).2.1) : ∃ m, e = .release m := by
  induction ms generalizing st with
  | nil => cases he
  | cons m rest ih =>
    simp only [cancelList, List.mem_append] at he
    rcases he with h | h
    · unfold cancelIfActive at h
      split at h
      · exact ⟨m, List.mem_singleton.mp h⟩
      · cases h
    · exact ih _ h

/-- C1 (counterexample): the claim is false on the code.  `Start` is a
directional movement (`MovementPacket::contains_direction` includes it),
yet `RunnerState::cancel_directional` releases only Up/Down/Left/Right.
Run the scheduler on packet `{Start}, 200 ms` followed by the non-blocking
directional packet `{Up}, 100 ms`: when the second packet is processed,
`Start` is still active (remaining 200 > 0), but the trace is exactly
`[press Start, press Up]` — no `release(Start)` event occurs at all, let
alone strictly before the press of `Up`. -/
theorem C1_counterexample :
    (⟨[.Up], 100, 0, false⟩ : MovementPacket).blocking = false ∧
    (⟨[.Up], 100, 0, false⟩ : MovementPacket).containsDirection = true ∧
    Movement.isDirection .Start = true ∧
    (runState initState [.pkt ⟨[.Start], 200, 0, false⟩]).remaining .Start > 0 ∧
    runTrace initState [.pkt ⟨[.Start], 200, 0, false⟩, .pkt ⟨[.Up], 100, 0, false⟩]
      = [.press .Start, .press .Up] ∧
    GEvent.release .Start ∉
      runTrace initState [.pkt ⟨[.Start], 200, 0, false⟩, .pkt ⟨[.Up], 100, 0, false⟩] := by
  decide

/-- C1 (amended): directional preemption releases an active movement `d`
before any press of Q only when `d` is one of Up/Down/Left/Right (the set
`cancel_directional` cancels) or `d` occurs in Q's own movement list — not
for an active Start or Select outside Q.  Whenever such a `d` is active and
a non-blocking packet Q containing a directional is processed (with an
empty deferral queue), the call releases `d`, emits no press at all, and
defers Q to `apply_next_tick`, so every press of Q happens on a later tick,
strictly after the release of `d` in the trace. -/
theorem C1_directional_preemption (st : RunnerState) (Q : MovementPacket) (d : Movement)
    (ticking : Bool)
    (hb : Q.blocking = false)
    (hdir : Q.containsDirection = true)
    (hq : st.packetQueue = [])
    (hd : d ∈ [Movement.Up, .Down, .Left, .Right] ∨ d ∈ Q.movements)
    (hact : st.remaining d > 0) :
    (processPacket st Q ticking).2.2 = true ∧
    GEvent.release d ∈ (processPacket st Q ticking).2.1 ∧
    (∀ m, GEvent.press m ∉ (processPacket st Q ticking).2.1) ∧
    (processPacket st Q ticking).1.applyNextTick = some Q := by
  have hrel : GEvent.release d ∈ (cancelDirectional st).2.1 ++
      (cancelList (cancelDirectional st).1 Q.movements).2.1 := by
    rw [List.mem_append]
    rcases hd with h | h
    · exact Or.inl (cancelList_release_mem _ st d h hact)
    · by_cases hdir4 : d ∈ [Movement.Up, .Down, .Left, .Right]
      · exact Or.inl (cancelList_release_mem _ st d hdir4 hact)
      · refine Or.inr (cancelList_release_mem _ _ d h ?_)
        show (cancelList st [Movement.Up, .Down, .Left, .Right]).1.remaining d > 0
        rw [cancelList_remaining_notmem _ st d hdir4]
        exact hact
  have hflag : ((cancelDirectional st).2.2 ||
      (cancelList (cancelDirectional st).1 Q.movements).2.2) = true := by
    rw [Bool.or_eq_true]
    rcases hd with h | h
    · exact Or.inl (cancelList_flag _ st d h hact)
    · by_cases hdir4 : d ∈ [Movement.Up, .Down, .Left, .Right]
      · exact Or.inl (cancelList_flag _ st d hdir4 hact)
      · refine Or.inr (cancelList_flag _ _ d h ?_)
        show (cancelList st [Movement.Up, .Down, .Left, .Right]).1.remaining d > 0
        rw [cancelList_remaining_notmem _ st d hdir4]
        exact hact
  have hred : processPacket st Q ticking =
      ({ (cancelList (cancelDirectional st).1 Q.movements).1 with applyNextTick := some Q },
       (cancelDirectional st).2.1 ++ (cancelList (cancelDirectional st).1 Q.movements).2.1,
       true) := by
    unfold processPacket
    rw [hb, hq, hdir]
    simp only [Bool.false_eq_true, if_false, List.isEmpty_nil, Bool.not_true,
      Bool.and_false, if_true, hflag]
  refine ⟨by rw [hred], by rw [hred]; exact hrel, ?_, by rw [hred]⟩
  intro m hm
  rw [hred] at hm
  rcases List.mem_append.mp hm with h | h
  · rcases cancelList_only_releases _ st _ h with ⟨m', hm'⟩
    exact GEvent.noConfusion hm'
  · rcases cancelList_only_releases _ _ _ h with ⟨m', hm'⟩
    exact GEvent.noConfusion hm'

/-- C1 (witness): the amended theorem applied at a concrete input — state
with `Left` active for 300 ms, incoming non-blocking packet `{Up}, 100 ms`. -/
theorem C1_directional_preemption_witness :
    ({ initState with remaining := fun x => if x = Movement.Left then 300 else 0 }
        : RunnerState).remaining .Left > 0 ∧
    GEvent.release .Left ∈
      (processPacket
        { initState with remaining := fun x => if x = Movement.Left then 300 else 0 }
        ⟨[.Up], 100, 0, false⟩ false).2.1 ∧
    (processPacket
        { initState with remaining := fun x => if x = Movement.Left then 300 else 0 }
        ⟨[.Up], 100, 0, false⟩ false).1.applyNextTick = some ⟨[.Up], 100, 0, false⟩ :=
  ⟨by decide,
   (C1_directional_preemption _ ⟨[.Up], 100, 0, false⟩ .Left false rfl (by decide) rfl
     (Or.inl (by decide)) (by decide)).2.1,
   (C1_directional_preemption _ ⟨[.Up], 100, 0, false⟩ .Left false rfl (by decide) rfl
     (Or.inl (by decide)) (by decide)).2.2.2⟩

/-- C2: a blocking `MovementPacket` is accepted by `process_packet` exactly
when every remaining time is 0; when accepted, the emitted events are the
presses of its movements in packet order followed by the releases in
reverse order, the scheduler state is untouched, and in the running trace
those events form one contiguous block (the whole block is emitted within
the single `process_packet` call, before any later input is processed);
when refused, nothing is emitted and the state is unchanged. -/
theorem C2_blocking_atomic (st : RunnerState) (p : MovementPacket)
    (ticking : Bool) (hb : p.blocking = true) :
    ((processPacket st p ticking).2.2 = true ↔ timeRemainingEmpty st = true) ∧
    (timeRemainingEmpty st = true →
      (processPacket st p ticking).2.1
        = p.movements.map GEvent.press ++ p.movements.reverse.map GEvent.release ∧
      (processPacket st p ticking).1 = st) ∧
    (timeRemainingEmpty st = false →
      (processPacket st p ticking).2.1 = [] ∧ (processPacket st p ticking).1 = st) ∧
    (timeRemainingEmpty st = true → ∀ rest,
      runTrace st (SchedInput.pkt p :: rest)
        = (p.movements.map GEvent.press ++ p.movements.reverse.map GEvent.release)
          ++ runTrace st rest) := by
  have hred : ∀ tk : Bool, processPacket st p tk =
      if timeRemainingEmpty st then (st, blockingEvents p, true) else (st, [], false) := by
    intro tk
    unfold processPacket
    rw [hb]
    simp only [if_true]
  cases h : timeRemainingEmpty st
  · refine ⟨by rw [hred ticking, h]; simp, by simp [h],
      by rw [hred ticking, h]; exact fun _ => ⟨rfl, rfl⟩, by simp [h]⟩
  · refine ⟨by rw [hred ticking, h]; simp, fun _ => by rw [hred ticking, h]; exact ⟨rfl, rfl⟩,
      by simp [h], fun _ rest => ?_⟩
    have hstep : stepInput st (SchedInput.pkt p) = (st, blockingEvents p) := by
      simp [stepInput, processMessage, hred false, h]
    simp only [runTrace]
    rw [hstep]
    rfl

/-- C2 (witness): the theorem applied to the idle initial state and the
synthetic save-state packet `{Mode, A}, duration 100, stagger 100,
blocking`. -/
theorem C2_blocking_atomic_witness :
    (⟨[.Mode, .A], 100, 100, true⟩ : MovementPacket).blocking = true ∧
    timeRemainingEmpty initState = true ∧
    ((processPacket initState ⟨[.Mode, .A], 100, 100, true⟩ false).2.2 = true ↔
      timeRemainingEmpty initState = true) ∧
    (processPacket initState ⟨[.Mode, .A], 100, 100, true⟩ false).2.1
      = [.press .Mode, .press .A, .release .A, .release .Mode] :=
  ⟨rfl, by decide,
   (C2_blocking_atomic initState ⟨[.Mode, .A], 100, 100, true⟩ false rfl).1,
   by
    rw [((C2_blocking_atomic initState ⟨[.Mode, .A], 100, 100, true⟩ false rfl).2.1
      (by decide)).1]
    decide⟩

/-! Helper lemmas about the movement parser. -/

theorem bitLenAux_zero (fuel : Nat) : bitLenAux fuel 0 = 0 := by
  cases fuel <;> rfl

theorem bitLenAux_spec (fuel : Nat) : ∀ n, n ≤ fuel → 0 < n →
    2 ^ (bitLenAux fuel n - 1) ≤ n ∧ n < 2 ^ bitLenAux fuel n := by
  induction fuel with
  | zero => intro n h h0; omega
  | succ fuel ih =>
    intro n h h0
    unfold bitLenAux
    rw [if_neg (by omega)]
    by_cases h2 : n / 2 = 0
    · have h1 : n = 1 := by omega
      subst h1
      rw [show (1 : Nat) / 2 = 0 from rfl, bitLenAux_zero]
      norm_num
    · have hrec := ih (n / 2) (by omega) (by omega)
      have hk1 : 0 < bitLenAux fuel (n / 2) := by
        rcases Nat.eq_zero_or_pos (bitLenAux fuel (n / 2)) with h0' | h'
        · rw [h0'] at hrec
          simp at hrec
          omega
        · exact h'
      constructor
      · have hstep : 2 ^ bitLenAux fuel (n / 2)
            = 2 ^ (bitLenAux fuel (n / 2) - 1) * 2 := by
          rw [← pow_succ]
          congr 1
          omega
        have h1 := hrec.1
        simp only [Nat.add_sub_cancel]
        omega
      · have hstep : 2 ^ (bitLenAux fuel (n / 2) + 1)
            = 2 ^ bitLenAux fuel (n / 2) * 2 := pow_succ 2 _
        have h1 := hrec.2
        omega

theorem bitLen_bounds (n : Nat) (h : 0 < n) :
    2 ^ (bitLen n - 1) ≤ n ∧ n < 2 ^ bitLen n :=
  bitLenAux_spec n n (le_refl n) h

theorem bitLen_pos (n : Nat) (h : 0 < n) : 0 < bitLen n := by
  rcases Nat.eq_zero_or_pos (bitLen n) with h0 | h1
  · have := (bitLen_bounds n h).2
    rw [h0] at this
    omega
  · exact h1

theorem ratLog2_lower (num den : Nat) (hn : 0 < num) (hd : 0 < den) :
    gePow2 num den (ratLog2 num den) = true := by
  unfold ratLog2
  dsimp only
  split
  case isTrue hge => exact hge
  case isFalse hge =>
    have hnb := bitLen_bounds num hn
    have hdb := bitLen_bounds den hd
    have hbn1 := bitLen_pos num hn
    unfold gePow2
    split
    case isTrue hk =>
      rw [decide_eq_true_iff]
      have htn : (((bitLen num : Int) - (bitLen den : Int) - 1)).toNat
          = bitLen num - bitLen den - 1 := by omega
      rw [htn]
      have hbd : bitLen den ≤ bitLen num - 1 := by omega
      calc den * 2 ^ (bitLen num - bitLen den - 1)
          ≤ (2 ^ bitLen den - 1) * 2 ^ (bitLen num - bitLen den - 1) := by
            exact Nat.mul_le_mul_right _ (by omega)
        _ ≤ 2 ^ bitLen den * 2 ^ (bitLen num - bitLen den - 1)
            - 2 ^ (bitLen num - bitLen den - 1) := by
            rw [Nat.sub_one_mul]
        _ ≤ 2 ^ (bitLen num - 1) - 1 := by
            rw [← pow_add]
            have hexp : bitLen den + (bitLen num - bitLen den - 1)
                = bitLen num - 1 := by omega
            rw [hexp]
            have : 1 ≤ 2 ^ (bitLen num - bitLen den - 1) := Nat.one_le_two_pow
            omega
        _ ≤ num := by
            have := hnb.1
            omega
    case isFalse hk =>
      rw [decide_eq_true_iff]
      have htn : (-((bitLen num : Int) - (bitLen den : Int) - 1)).toNat
          = bitLen den + 1 - bitLen num := by omega
      rw [htn]
      have hexp : bitLen num - 1 + (bitLen den + 1 - bitLen num) = bitLen den := by
        omega
      calc den ≤ 2 ^ bitLen den := le_of_lt hdb.2
        _ = 2 ^ (bitLen num - 1) * 2 ^ (bitLen den + 1 - bitLen num) := by
            rw [← pow_add, hexp]
        _ ≤ num * 2 ^ (bitLen den + 1 - bitLen num) :=
            Nat.mul_le_mul_right _ hnb.1

theorem rndDiv_le (a b N : Nat) (hb : 0 < b) (h : a ≤ N * b) : rndDiv a b ≤ N := by
  unfold rndDiv
  dsimp only
  have hmod := Nat.div_add_mod a b
  have hq : a / b ≤ N := by
    calc a / b ≤ N * b / b := Nat.div_le_div_right h
      _ = N := Nat.mul_div_cancel N hb
  have hcomm : b * (a / b) = (a / b) * b := Nat.mul_comm _ _
  split_ifs with h1 h2 h3
  · exact hq
  · rcases Nat.lt_or_ge (a / b) N with hlt | hge
    · omega
    · have hqN : a / b = N := le_antisymm hq hge
      rw [hqN] at hmod hcomm
      have : N * b + a % b = a := by omega
      omega
  · exact hq
  · rcases Nat.lt_or_ge (a / b) N with hlt | hge
    · omega
    · have hqN : a / b = N := le_antisymm hq hge
      rw [hqN] at hmod hcomm
      have : N * b + a % b = a := by omega
      omega

theorem roundF64_le_bound (neg : Bool) (num den : Nat) (hd : 0 < den)
    (hn : 0 < num) (h : num ≤ 5000 * den) :
    ∃ q : Nat, ∃ e : Int, roundF64 neg num den = .finite neg q e ∧ e < 0 ∧
      q ≤ 5000 * 2 ^ (-e).toNat := by
  have hlog := ratLog2_lower num den hn hd
  have hl12 : ratLog2 num den ≤ 12 := by
    unfold gePow2 at hlog
    split at hlog
    case isTrue hk =>
      rw [decide_eq_true_iff] at hlog
      by_contra hcon
      push_neg at hcon
      have h13 : 13 ≤ (ratLog2 num den).toNat := by omega
      have hp : (2 : Nat) ^ 13 ≤ 2 ^ (ratLog2 num den).toNat :=
        Nat.pow_le_pow_right (by norm_num) h13
      have : den * 2 ^ 13 ≤ den * 2 ^ (ratLog2 num den).toNat :=
        Nat.mul_le_mul_left _ hp
      have : den * 8192 ≤ 5000 * den := by
        calc den * 8192 = den * 2 ^ 13 := by norm_num
          _ ≤ den * 2 ^ (ratLog2 num den).toNat := this
          _ ≤ num := hlog
          _ ≤ 5000 * den := h
      nlinarith [hd]
    case isFalse hk => omega
  set l := ratLog2 num den with hldef
  set e : Int := max (l - 52) (-1074) with hedef
  have he : e < 0 := by
    have h1 : l - 52 ≤ -40 := by omega
    have := max_le h1 (show (-1074 : Int) ≤ -40 by norm_num)
    omega
  have hP : (0 : Nat) < 2 ^ (-e).toNat := Nat.pos_pow_of_pos _ (by norm_num)
  have hq : rndDiv (num * 2 ^ (-e).toNat) den ≤ 5000 * 2 ^ (-e).toNat := by
    refine rndDiv_le _ _ _ hd ?_
    calc num * 2 ^ (-e).toNat ≤ 5000 * den * 2 ^ (-e).toNat :=
          Nat.mul_le_mul_right _ h
      _ = 5000 * 2 ^ (-e).toNat * den := by ring
  have hcore : roundPosRatCore num den = (rndDiv (num * 2 ^ (-e).toNat) den, e) := by
    unfold roundPosRatCore
    dsimp only
    rw [← hldef, ← hedef, if_neg (by omega)]
  have hnotinf : dyadicLe (2 ^ 1024) 0 (rndDiv (num * 2 ^ (-e).toNat) den) e = false := by
    unfold dyadicLe
    rw [if_pos (by omega : e ≤ (0 : Int)), decide_eq_false_iff_not, not_le]
    have hz : ((0 : Int) - e).toNat = (-e).toNat := by omega
    rw [hz]
    calc rndDiv (num * 2 ^ (-e).toNat) den ≤ 5000 * 2 ^ (-e).toNat := hq
      _ < 2 ^ 1024 * 2 ^ (-e).toNat := by
          refine (Nat.mul_lt_mul_right hP).mpr ?_
          calc (5000 : Nat) < 2 ^ 13 := by norm_num
            _ ≤ 2 ^ 1024 := Nat.pow_le_pow_right (by norm_num) (by norm_num)
  refine ⟨rndDiv (num * 2 ^ (-e).toNat) den, e, ?_, he, hq⟩
  unfold roundF64
  dsimp only
  rw [if_neg (by omega), hcore]
  dsimp only
  rw [if_neg (by rw [hnotinf]; exact Bool.false_ne_true)]

theorem movementDurationMs_le (t : String) (d : Nat)
    (h : movementDurationMs t = some d) : d ≤ 5000 := by
  unfold movementDurationMs at h
  cases hp : parseF64 t with
  | none => rw [hp] at h; cases h
  | some v =>
    rw [hp] at h
    simp only [Option.some_bind] at h
    split at h
    case isFalse => cases h
    case isTrue hle5 =>
      split at h
      case isFalse => cases h
      case isTrue hge0 =>
        simp only [Option.some.injEq] at h
        subst h
        cases v with
        | nan => simp [f64LeFive] at hle5
        | inf neg =>
          simp only [f64LeFive] at hle5
          simp only [f64Ge0, hle5, Bool.not_true] at hge0
          cases hge0
        | finite neg m e =>
          by_cases hm : m = 0
          · subst hm
            show f64ToU64 (f64Mul1000 (.finite neg 0 e)) ≤ 5000
            simp [f64Mul1000, f64ToU64]
          · have hneg : neg = false := by
              simp only [f64Ge0, Bool.or_eq_true, Bool.not_eq_eq_eq_not,
                Bool.not_true, beq_iff_eq] at hge0
              rcases hge0 with h1 | h1
              · simpa using h1
              · exact absurd h1 hm
            subst hneg
            simp only [f64LeFive, Bool.false_eq_true, if_false] at hle5
            show f64ToU64 (f64Mul1000 (.finite false m e)) ≤ 5000
            simp only [f64Mul1000]
            rw [if_neg hm]
            unfold dyadicLe at hle5
            split at hle5 <;> rw [decide_eq_true_iff] at hle5
            next hee =>
              -- 0 ≤ e, exact value m·2^e ≤ 5
              rw [if_pos (by omega)]
              obtain ⟨q, e', hre, he', hq⟩ :=
                roundF64_le_bound false (m * 1000 * 2 ^ e.toNat) 1 one_pos
                  (by positivity)
                  (by
                    have : m * 2 ^ (e - 0).toNat ≤ 5 := hle5
                    have h2 : m * 2 ^ e.toNat ≤ 5 := by
                      have hz : (e - 0).toNat = e.toNat := by omega
                      rw [hz] at this
                      exact this
                    calc m * 1000 * 2 ^ e.toNat = m * 2 ^ e.toNat * 1000 := by ring
                      _ ≤ 5 * 1000 := Nat.mul_le_mul_right _ h2
                      _ = 5000 * 1 := by norm_num)
              rw [hre]
              simp only [f64ToU64, Bool.false_eq_true, if_false,
                if_neg (not_le.mpr he')]
              refine le_trans (min_le_left _ _) ?_
              calc q / 2 ^ (-e').toNat ≤ 5000 * 2 ^ (-e').toNat / 2 ^ (-e').toNat :=
                    Nat.div_le_div_right hq
                _ = 5000 := Nat.mul_div_cancel 5000 (Nat.pos_pow_of_pos _ (by norm_num))
            next hee =>
              -- e < 0, exact value m/2^(−e) ≤ 5
              rw [if_neg (by omega)]
              obtain ⟨q, e', hre, he', hq⟩ :=
                roundF64_le_bound false (m * 1000) (2 ^ (-e).toNat)
                  (Nat.pos_pow_of_pos _ (by norm_num)) (by positivity)
                  (by
                    have : m ≤ 5 * 2 ^ (0 - e).toNat := hle5
                    have hz : (0 - e).toNat = (-e).toNat := by omega
                    rw [hz] at this
                    calc m * 1000 ≤ 5 * 2 ^ (-e).toNat * 1000 :=
                          Nat.mul_le_mul_right _ this
                      _ = 5000 * 2 ^ (-e).toNat := by ring)
              rw [hre]
              simp only [f64ToU64, Bool.false_eq_true, if_false,
                if_neg (not_le.mpr he')]
              refine le_trans (min_le_left _ _) ?_
              calc q / 2 ^ (-e').toNat ≤ 5000 * 2 ^ (-e').toNat / 2 ^ (-e').toNat :=
                    Nat.div_le_div_right hq
                _ = 5000 := Nat.mul_div_cancel 5000 (Nat.pos_pow_of_pos _ (by norm_num))

theorem pmAux_duration (toks : List String) :
    ∀ ms dur, pmAux toks = some (ms, dur) →
      dur = some 100 ∨ ∃ t, dur = movementDurationMs t := by
  induction toks with
  | nil =>
    intro ms dur h
    simp only [pmAux, Option.some.injEq, Prod.mk.injEq] at h
    exact Or.inl h.2.symm
  | cons t rest ih =>
    intro ms dur h
    unfold pmAux at h
    cases hx : parse_movement_token t with
    | some m =>
      rw [hx] at h
      cases hr : pmAux rest with
      | none => rw [hr] at h; cases h
      | some r =>
        rw [hr] at h
        simp only [Option.map_some', Option.some.injEq, Prod.mk.injEq] at h
        rcases ih r.1 r.2 (by rw [hr]) with h100 | ⟨t', ht'⟩
        · exact Or.inl (h.2.symm.trans h100)
        · exact Or.inr ⟨t', h.2.symm.trans ht'⟩
    | none =>
      rw [hx] at h
      cases rest with
      | nil =>
        simp only [Option.some.injEq, Prod.mk.injEq] at h
        exact Or.inr ⟨t, h.2.symm⟩
      | cons y ys => cases h

theorem pmAux_all_movements (toks : List String) :
    ∀ ms : List Movement, toks.map parse_movement_token = ms.map some →
      pmAux toks = some (ms, some 100) := by
  induction toks with
  | nil =>
    intro ms h
    cases ms with
    | nil => rfl
    | cons m ms' => simp at h
  | cons t rest ih =>
    intro ms h
    cases ms with
    | nil => simp at h
    | cons m ms' =>
      simp only [List.map_cons, List.cons.injEq] at h
      unfold pmAux
      rw [h.1, ih ms' h.2]
      rfl

theorem pmAux_trailing (toks : List String) :
    ∀ ms : List Movement, toks.map parse_movement_token = ms.map some →
      ∀ t, parse_movement_token t = none →
      pmAux (toks ++ [t]) = some (ms, movementDurationMs t) := by
  induction toks with
  | nil =>
    intro ms h t hn
    cases ms with
    | nil =>
      show pmAux [t] = _
      unfold pmAux
      rw [hn]
    | cons m ms' => simp at h
  | cons x rest ih =>
    intro ms h t hn
    cases ms with
    | nil => simp at h
    | cons m ms' =>
      simp only [List.map_cons, List.cons.injEq] at h
      show pmAux (x :: (rest ++ [t])) = _
      unfold pmAux
      rw [h.1, ih ms' h.2 t hn]
      rfl

theorem pmAux_mid_junk (pre : List String) (t : String) (post : List String)
    (hn : parse_movement_token t = none) (hpost : post ≠ []) :
    pmAux (pre ++ t :: post) = none := by
  induction pre with
  | nil =>
    cases post with
    | nil => exact absurd rfl hpost
    | cons q qs =>
      show pmAux (t :: q :: qs) = none
      unfold pmAux
      rw [hn]
  | cons x pre' ih =>
    show pmAux (x :: (pre' ++ t :: post)) = none
    unfold pmAux
    cases hx : parse_movement_token x with
    | some m => rw [ih]; rfl
    | none =>
      cases hl : pre' ++ t :: post with
      | nil => simp at hl
      | cons y ys => rfl

set_option maxRecDepth 16000 in
/-- C5: movement-form parsing.  (1) Every packet `parse_movement`
produces has non-empty movements, duration ≤ 5000 ms, stagger 0, and
blocking false.  (2) A non-empty line of pure movement tokens parses to
those movements in token order with the default 100 ms duration.  (3) A
non-empty movement-token line followed by one numeric token `t` parses
with the duration `movementDurationMs t` computes: the f64 value of `t`
multiplied by 1000 (both correctly rounded) and cast to an integer, for
0 ≤ t ≤ 5.  (4) When the trailing non-movement token fails the numeric
filters (t > 5, t < 0, NaN or non-numeric), the whole line is rejected.  (5) A
non-movement token in any non-final position rejects the whole line.
(6) The four literal scenarios of the spec, through the full
`parse_command` pipeline with its whitespace/lowercase preprocessing. -/
theorem C5_parse_movement :
    (∀ toks p, parse_movement toks = some (.movement p) →
      p.movements ≠ [] ∧ p.duration ≤ 5000 ∧ p.stagger = 0 ∧ p.blocking = false) ∧
    (∀ toks (ms : List Movement), toks.map parse_movement_token = ms.map some →
      toks ≠ [] → parse_movement toks = some (.movement ⟨ms, 100, 0, false⟩)) ∧
    (∀ toks (ms : List Movement) t d, toks.map parse_movement_token = ms.map some →
      ms ≠ [] → parse_movement_token t = none → movementDurationMs t = some d →
      parse_movement (toks ++ [t]) = some (.movement ⟨ms, d, 0, false⟩)) ∧
    (∀ toks (ms : List Movement) t, toks.map parse_movement_token = ms.map some →
      parse_movement_token t = none → movementDurationMs t = none →
      parse_movement (toks ++ [t]) = none) ∧
    (∀ pre t post, parse_movement_token t = none → post ≠ [] →
      parse_movement (pre ++ t :: post) = none) ∧
    parse_command 0 "a b lt 1" = some (.movement ⟨[.A, .B, .TL], 1000, 0, false⟩) ∧
    parse_command 0 "A" = some (.movement ⟨[.A], 100, 0, false⟩) ∧
    parse_command 0 "a 0.6" = some (.movement ⟨[.A], 600, 0, false⟩) ∧
    parse_command 0 "a 100" = none := by
  refine ⟨?_, ?_, ?_, ?_, ?_, by decide, by decide, by decide, by decide⟩
  · intro toks p h
    unfold parse_movement at h
    split at h
    · cases h
    · cases hp : pmAux toks with
      | none => rw [hp] at h; cases h
      | some r =>
        obtain ⟨ms, dur⟩ := r
        rw [hp] at h
        simp only at h
        split at h
        case isTrue => cases h
        case isFalse hne =>
          cases hd : dur with
          | none => rw [hd] at h; cases h
          | some d =>
            rw [hd] at h
            simp only [Option.map_some', Option.some.injEq, Command.movement.injEq] at h
            subst h
            refine ⟨by simpa using hne, ?_, rfl, rfl⟩
            rcases pmAux_duration toks ms dur hp with h100 | ⟨t', ht'⟩
            · rw [hd] at h100
              simp only [Option.some.injEq] at h100
              simp [h100]
            · rw [hd] at ht'
              exact movementDurationMs_le t' d ht'.symm
  · intro toks ms h hne
    have hlen : toks.length = ms.length := by
      have := congrArg List.length h
      simpa using this
    unfold parse_movement
    rw [pmAux_all_movements toks ms h]
    have hmsne : ms ≠ [] := by
      intro hc
      subst hc
      simp at hlen
      exact hne hlen
    simp [List.isEmpty_eq_false_iff_exists_mem.mpr, hne, List.isEmpty_iff, hmsne]
  · intro toks ms t d h hmsne hn hd
    unfold parse_movement
    rw [pmAux_trailing toks ms h t hn, hd]
    simp [List.isEmpty_iff, hmsne]
  · intro toks ms t h hn hd
    unfold parse_movement
    rw [pmAux_trailing toks ms h t hn, hd]
    simp
  · intro pre t post hn hpost
    unfold parse_movement
    rw [pmAux_mid_junk pre t post hn hpost]
    simp

set_option maxRecDepth 16000 in
/-- C5 (witness): conjunct (3) of the theorem applied at the concrete
input `["u"] ++ ["0.5"]`, together with its hypotheses. -/
theorem C5_parse_movement_witness :
    ["u"].map parse_movement_token = [Movement.Up].map some ∧
    parse_movement_token "0.5" = none ∧
    movementDurationMs "0.5" = some 500 ∧
    parse_movement (["u"] ++ ["0.5"]) = some (.movement ⟨[.Up], 500, 0, false⟩) :=
  ⟨by decide, by decide, by decide,
   C5_parse_movement.2.2.1 ["u"] [.Up] "0.5" 500 (by decide) (by decide) (by decide)
     (by decide)⟩

theorem alookup_aupsert_self {α : Type} (l : List (String × α)) (k : String) (v : α) :
    alookup (aupsert l k v) k = some v := by
  induction l with
  | nil => simp [aupsert, alookup]
  | cons kv rest ih =>
    unfold aupsert
    by_cases h : kv.1 = k
    · simp [h, alookup]
    · simp [h, alookup, ih]

theorem alookup_aremove_self {α : Type} (l : List (String × α)) (k : String) :
    alookup (aremove l k) k = none := by
  induction l with
  | nil => rfl
  | cons kv rest ih =>
    unfold aremove at ih ⊢
    by_cases h : kv.1 = k
    · simpa [List.filter_cons, h] using ih
    · simp only [List.filter_cons]
      rw [if_pos (by simp [h])]
      unfold alookup
      rw [if_neg h]
      exact ih

/-- C4: `test_and_set_cooldown_lapsed` (1) unconditionally stores `now`
as the sender's last-command time, (2) returns true exactly when no
record existed or `now ≥ last + cooldown`, (3) hence two consecutive
calls for the same sender at times t1 then t2 both return true only if
`t2 ≥ t1 + c`, and (4) when the Democracy cooldown gate gets a false
result, `run_commands` replies None and processes nothing: no effects,
and the state changes only by the gate's own `last_command_time` write
(and the loop's unconditional sender upsert). -/
theorem C4_cooldown (db : Db) (id : String) (c t1 t2 : Int) (hc : 0 < c) :
    alookup (test_and_set_cooldown_lapsed db id c t1).1.lastCommandTime id = some t1 ∧
    ((test_and_set_cooldown_lapsed db id c t1).2 = true ↔
      (alookup db.lastCommandTime id = none ∨
       ∃ last, alookup db.lastCommandTime id = some last ∧ t1 ≥ last + c)) ∧
    ((test_and_set_cooldown_lapsed
        (test_and_set_cooldown_lapsed db id c t1).1 id c t2).2 = true → t2 ≥ t1 + c) ∧
    (∀ cfg st msg now, st.mode = .Democracy → st.cooldown = c →
      (elevate (update_user st.db msg.senderId msg.senderName) msg).privilege.toNat
          < Privilege.Operator.toNat →
      (test_and_set_cooldown_lapsed (update_user st.db msg.senderId msg.senderName)
          msg.senderId c now).2 = false →
      handleMessage cfg st msg now =
        { state := { st with db := (test_and_set_cooldown_lapsed
              (update_user st.db msg.senderId msg.senderName) msg.senderId c now).1 }
          effects := []
          replies := [none] }) := by
  refine ⟨?_, ?_, ?_, ?_⟩
  · unfold test_and_set_cooldown_lapsed
    exact alookup_aupsert_self db.lastCommandTime id t1
  · unfold test_and_set_cooldown_lapsed
    cases h : alookup db.lastCommandTime id with
    | none => simp
    | some last => simp
  · intro h2
    have h1 : alookup (test_and_set_cooldown_lapsed db id c t1).1.lastCommandTime id
        = some t1 := by
      unfold test_and_set_cooldown_lapsed
      exact alookup_aupsert_self db.lastCommandTime id t1
    have hflag : ∀ db' : Db, (test_and_set_cooldown_lapsed db' id c t2).2
        = match alookup db'.lastCommandTime id with
          | some last => decide (t2 ≥ last + c)
          | none => true := fun _ => rfl
    rw [hflag, h1] at h2
    simpa using h2
  · intro cfg st msg now hmode hcd hpriv hfalse
    have hsid : (elevate (update_user st.db msg.senderId msg.senderName) msg).senderId
        = msg.senderId := by
      unfold elevate
      split <;> rfl
    unfold handleMessage
    rw [if_neg (by rw [hmode]; intro hcontra; cases hcontra.2)]
    rw [if_pos (by rw [hmode, hcd]; exact ⟨hpriv, rfl, by omega⟩)]
    simp only [hsid, hcd]
    rw [if_neg (by rw [hfalse]; simp)]

/-- C4 (witness): the theorem applied to the empty database, sender
`"u"`, cooldown 1000 ms, first call at t1 = 0, second at t2 = 1500. -/
theorem C4_cooldown_witness :
    (0 : Int) < 1000 ∧
    alookup (test_and_set_cooldown_lapsed ⟨[], [], [], [], []⟩ "u" 1000 0).1.lastCommandTime
      "u" = some 0 ∧
    ((test_and_set_cooldown_lapsed
        (test_and_set_cooldown_lapsed ⟨[], [], [], [], []⟩ "u" 1000 0).1
        "u" 1000 1500).2 = true → (1500 : Int) ≥ 0 + 1000) :=
  ⟨by norm_num,
   (C4_cooldown ⟨[], [], [], [], []⟩ "u" 1000 0 1500 (by norm_num)).1,
   (C4_cooldown ⟨[], [], [], [], []⟩ "u" 1000 0 1500 (by norm_num)).2.2.1⟩

/-- C7: for a user with a block record, `is_blocked` reports an absent
`unblock_time` as blocked indefinitely (record untouched); a lapsed
`unblock_time ≤ now` as not blocked, deleting the record; and a future
`unblock_time > now` as blocked with the record unchanged. -/
theorem C7_block_lapse (db : Db) (id : String) (now : Int) :
    (alookup db.blockedUsers id = some none → is_blocked db id now = (db, true)) ∧
    (∀ t, alookup db.blockedUsers id = some (some t) → t ≤ now →
      (is_blocked db id now).2 = false ∧
      (is_blocked db id now).1 = { db with blockedUsers := aremove db.blockedUsers id } ∧
      alookup (is_blocked db id now).1.blockedUsers id = none) ∧
    (∀ t, alookup db.blockedUsers id = some (some t) → now < t →
      is_blocked db id now = (db, true)) := by
  refine ⟨?_, ?_, ?_⟩
  · intro h
    unfold is_blocked
    rw [h]
  · intro t h hle
    have hred : is_blocked db id now
        = ({ db with blockedUsers := aremove db.blockedUsers id }, false) := by
      unfold is_blocked
      rw [h]
      exact if_pos hle
    rw [hred]
    exact ⟨rfl, rfl, alookup_aremove_self db.blockedUsers id⟩
  · intro t h hgt
    unfold is_blocked
    rw [h]
    exact if_neg (by omega)

/-- C7 (witness): the theorem applied to a database blocking `"u"` until
instant 5, looked up at `now = 10` (lapsed) — not blocked and the record
is gone. -/
theorem C7_block_lapse_witness :
    alookup (⟨[("u", "alice")], [], [("u", some 5)], [], []⟩ : Db).blockedUsers "u"
      = some (some 5) ∧
    (5 : Int) ≤ 10 ∧
    (is_blocked ⟨[("u", "alice")], [], [("u", some 5)], [], []⟩ "u" 10).2 = false ∧
    alookup (is_blocked ⟨[("u", "alice")], [], [("u", some 5)], [], []⟩ "u" 10).1.blockedUsers
      "u" = none :=
  ⟨by decide, by norm_num,
   ((C7_block_lapse ⟨[("u", "alice")], [], [("u", some 5)], [], []⟩ "u" 10).2.1 5
     (by decide) (by norm_num)).1,
   ((C7_block_lapse ⟨[("u", "alice")], [], [("u", some 5)], [], []⟩ "u" 10).2.1 5
     (by decide) (by norm_num)).2.2⟩

/-- C3: a Movement packet that reaches the dispatch stage is forwarded to
the input scheduler (a send on the gamepad channel) exactly when the mode
is not Streaming, and the mode is Restricted or the current game does not
declare any of its movements restricted, and the mode is Anarchy or the
sender is not blocked; in every other case no gamepad send happens. -/
theorem C3_movement_dispatch (cfg : ConfigM) (st : CmdState) (sid sname : String)
    (priv : Privilege) (packet : MovementPacket) (now : Int) :
    Effect.gamepad packet ∈
      (dispatch cfg st ⟨.movement packet, sid, sname, priv⟩ now).effects ↔
    (st.mode ≠ .Streaming ∧
     (st.mode = .Restricted ∨ gameRestricts st packet = false) ∧
     (st.mode = .Anarchy ∨ (is_blocked st.db sid now).2 = false)) := by
  unfold dispatch
  simp only
  split_ifs with h1 h2 h3 h4 <;> simp_all
  rcases Classical.em (st.mode = AnarchyType.Restricted) with hr | hr
  · exact Or.inl hr
  · exact Or.inr (h1 hr)

/-- C6 (counterexample): the claim is false on the code.  The source
emits `GameRunner::Stop` and `SfxEnable(true)` whenever the NEW mode is
Streaming (`if let AnarchyType::Streaming = am`), with no check that the
previous mode was different: a Moderator issuing SetAnarchyMode(Streaming)
while the mode is already Streaming still gets both emissions, though
this is not a transition into Streaming. -/
theorem C6_counterexample :
    (⟨.Streaming, 0, none, ⟨[], [], [], [], []⟩⟩ : CmdState).mode = .Streaming ∧
    (dispatch ⟨[], true⟩ ⟨.Streaming, 0, none, ⟨[], [], [], [], []⟩⟩
        ⟨.setAnarchyMode .Streaming, "mid", "mod", .Moderator⟩ 0).effects
      = [.gameRunner .stop, .sfx (.enable true)] ∧
    Effect.gameRunner .stop ∈
      (dispatch ⟨[], true⟩ ⟨.Streaming, 0, none, ⟨[], [], [], [], []⟩⟩
        ⟨.setAnarchyMode .Streaming, "mid", "mod", .Moderator⟩ 0).effects := by
  refine ⟨rfl, rfl, ?_⟩
  rw [show (dispatch ⟨[], true⟩ ⟨.Streaming, 0, none, ⟨[], [], [], [], []⟩⟩
        ⟨.setAnarchyMode .Streaming, "mid", "mod", .Moderator⟩ 0).effects
      = [.gameRunner .stop, .sfx (.enable true)] from rfl]
  exact List.mem_cons_self _ _

/-- C6 (amended): for a Moderator+ sender with an sfx channel configured,
`SfxEnable(false)` is emitted iff the previous mode was Streaming and the
new mode is not; `GameRunner::Stop` and `SfxEnable(true)` are emitted and
the current-game reference is nulled iff the NEW mode is Streaming —
regardless of whether the previous mode already was Streaming; the new
mode is stored and persisted to the `anarchy_mode` key in every case. -/
theorem C6_set_anarchy_mode (cfg : ConfigM) (st : CmdState) (sid sname : String)
    (priv : Privilege) (am : AnarchyType) (now : Int)
    (hpriv : priv.toNat ≥ Privilege.Moderator.toNat)
    (hsfx : cfg.sfxConfigured = true) :
    (Effect.sfx (.enable false) ∈
        (dispatch cfg st ⟨.setAnarchyMode am, sid, sname, priv⟩ now).effects ↔
      (st.mode = .Streaming ∧ am ≠ .Streaming)) ∧
    (Effect.gameRunner .stop ∈
        (dispatch cfg st ⟨.setAnarchyMode am, sid, sname, priv⟩ now).effects ↔
      am = .Streaming) ∧
    (Effect.sfx (.enable true) ∈
        (dispatch cfg st ⟨.setAnarchyMode am, sid, sname, priv⟩ now).effects ↔
      am = .Streaming) ∧
    (am = .Streaming →
      (dispatch cfg st ⟨.setAnarchyMode am, sid, sname, priv⟩ now).state.currentGame
        = none) ∧
    (am ≠ .Streaming →
      (dispatch cfg st ⟨.setAnarchyMode am, sid, sname, priv⟩ now).state.currentGame
        = st.currentGame) ∧
    (dispatch cfg st ⟨.setAnarchyMode am, sid, sname, priv⟩ now).state.mode = am ∧
    alookup (dispatch cfg st ⟨.setAnarchyMode am, sid, sname, priv⟩ now).state.db.configKv
      "anarchy_mode" = some am.toStr := by
  unfold dispatch
  simp only
  rw [if_pos hpriv]
  by_cases ham : am = AnarchyType.Streaming
  · subst ham
    rw [if_pos rfl]
    have hoff : ¬(st.mode = AnarchyType.Streaming ∧ AnarchyType.Streaming ≠
        AnarchyType.Streaming ∧ cfg.sfxConfigured = true) := by
      rintro ⟨-, hc, -⟩
      exact hc rfl
    rw [if_neg hoff, if_pos hsfx]
    refine ⟨by simp, by simp, by simp, fun _ => rfl, fun hc => absurd rfl hc, rfl, ?_⟩
    exact alookup_aupsert_self st.db.configKv "anarchy_mode" AnarchyType.Streaming.toStr
  · rw [if_neg ham]
    by_cases hmode : st.mode = AnarchyType.Streaming
    · rw [if_pos ⟨hmode, ham, hsfx⟩]
      refine ⟨by simp [hmode, ham], by simp [ham], by simp [ham], fun hc => absurd hc ham,
        fun _ => rfl, rfl, ?_⟩
      exact alookup_aupsert_self st.db.configKv "anarchy_mode" am.toStr
    · rw [if_neg (by rintro ⟨hc, -, -⟩; exact hmode hc)]
      refine ⟨by simp [hmode], by simp [ham], by simp [ham], fun hc => absurd hc ham,
        fun _ => rfl, rfl, ?_⟩
      exact alookup_aupsert_self st.db.configKv "anarchy_mode" am.toStr

/-- C6 (witness): the amended theorem applied at a concrete transition
Democracy → Streaming by a Moderator with sfx configured. -/
theorem C6_set_anarchy_mode_witness :
    Privilege.Moderator.toNat ≥ Privilege.Moderator.toNat ∧
    (⟨[], true⟩ : ConfigM).sfxConfigured = true ∧
    (dispatch ⟨[], true⟩ ⟨.Democracy, 0, none, ⟨[], [], [], [], []⟩⟩
        ⟨.setAnarchyMode .Streaming, "mid", "mod", .Moderator⟩ 0).state.mode
      = .Streaming ∧
    alookup (dispatch ⟨[], true⟩ ⟨.Democracy, 0, none, ⟨[], [], [], [], []⟩⟩
        ⟨.setAnarchyMode .Streaming, "mid", "mod", .Moderator⟩ 0).state.db.configKv
      "anarchy_mode" = some "streaming" :=
  ⟨le_refl _, rfl,
   (C6_set_anarchy_mode ⟨[], true⟩ ⟨.Democracy, 0, none, ⟨[], [], [], [], []⟩⟩
     "mid" "mod" .Moderator .Streaming 0 (le_refl _) rfl).2.2.2.2.2.1,
   (C6_set_anarchy_mode ⟨[], true⟩ ⟨.Democracy, 0, none, ⟨[], [], [], [], []⟩⟩
     "mid" "mod" .Moderator .Streaming 0 (le_refl _) rfl).2.2.2.2.2.2⟩

/-- C8: every message processed by the `run_commands` loop — any command
variant, any privilege, any mode, including rejections by the Restricted
and cooldown gates — produces exactly one value on its reply channel
before the loop moves to the next message. -/
theorem C8_exactly_one_reply (cfg : ConfigM) (st : CmdState) (msg : Message) (now : Int) :
    (handleMessage cfg st msg now).replies.length = 1 := by
  have hdisp : ∀ (st' : CmdState) (msg' : Message),
      (dispatch cfg st' msg' now).replies.length = 1 := by
    intro st' msg'
    unfold dispatch
    cases msg'.command <;> simp only <;> (try split_ifs) <;>
      (try split) <;> simp
  unfold handleMessage
  dsimp only
  split_ifs with h1 h2 h3
  · rfl
  · exact hdisp _ _
  · rfl
  · exact hdisp _ _

theorem pairwise_le_getLast (l : List (Nat × String))
    (hp : l.Pairwise (fun a b => a.1 < b.1)) (x : Nat × String) (hx : x ∈ l)
    (hne : l ≠ []) : x.1 ≤ (l.getLast hne).1 := by
  induction l with
  | nil => cases hx
  | cons a t ih =>
    cases t with
    | nil =>
      rcases List.mem_singleton.mp hx with rfl
      simp [List.getLast]
    | cons b t' =>
      rw [List.getLast_cons (by simp)]
      rcases List.mem_cons.mp hx with rfl | hx'
      · have hlast : (b :: t').getLast (by simp) ∈ b :: t' := List.getLast_mem _
        have := (List.pairwise_cons.mp hp).1 _ hlast
        omega
      · exact ih (List.pairwise_cons.mp hp).2 hx' (by simp)

/-- C9: for every `SubEvent(n)` request over a sound-effect config whose
`sub_events` map is sorted by strictly ascending threshold (the `BTreeMap`
key invariant): if every threshold exceeds `n` (in particular for the
empty map), the request resolves to no file and the runner plays nothing;
otherwise the entry picked by `range(..=n).next_back()` is an entry of the
map with the greatest threshold ≤ n, and the resolved file is that
entry's sound name looked up in `sounds`. -/
theorem C9_sub_event (cfg : SoundEffectConfig) (n : Nat)
    (hsort : cfg.subEvents.Pairwise (fun a b => a.1 < b.1)) :
    ((∀ kv ∈ cfg.subEvents, n < kv.1) →
      to_file (.subEvent n) cfg = none ∧ (sfxStep cfg true (.subEvent n)).2 = none) ∧
    (∀ kv ∈ cfg.subEvents, kv.1 ≤ n →
      ∃ k s, pickSubEvent cfg.subEvents n = some (k, s) ∧ (k, s) ∈ cfg.subEvents ∧
        k ≤ n ∧ kv.1 ≤ k ∧ to_file (.subEvent n) cfg = soundsGet cfg.sounds s) := by
  constructor
  · intro hall
    have hfilter : cfg.subEvents.filter (fun kv => decide (kv.1 ≤ n)) = [] := by
      rw [List.filter_eq_nil_iff]
      intro a ha
      simpa using Nat.not_le_of_lt (hall a ha)
    have hpick : pickSubEvent cfg.subEvents n = none := by
      unfold pickSubEvent
      rw [hfilter]
      rfl
    have hto : to_file (.subEvent n) cfg = none := by
      show (pickSubEvent cfg.subEvents n).bind (fun kv => soundsGet cfg.sounds kv.2) = none
      rw [hpick]
      rfl
    refine ⟨hto, ?_⟩
    show (match to_file (.subEvent n) cfg with
          | some file => if true = true then (true, some file) else (true, none)
          | none => (true, none) : Bool × Option String).2 = none
    rw [hto]
  · intro kv hkv hle
    have hmem : kv ∈ cfg.subEvents.filter (fun x => decide (x.1 ≤ n)) :=
      List.mem_filter.mpr ⟨hkv, by simpa using hle⟩
    have hne : cfg.subEvents.filter (fun x => decide (x.1 ≤ n)) ≠ [] :=
      List.ne_nil_of_mem hmem
    have hpick : pickSubEvent cfg.subEvents n
        = some ((cfg.subEvents.filter (fun x => decide (x.1 ≤ n))).getLast hne) := by
      unfold pickSubEvent
      exact List.getLast?_eq_getLast _ hne
    set g := (cfg.subEvents.filter (fun x => decide (x.1 ≤ n))).getLast hne with hg
    have hgmem : g ∈ cfg.subEvents.filter (fun x => decide (x.1 ≤ n)) :=
      List.getLast_mem hne
    refine ⟨g.1, g.2, ?_, ?_, ?_, ?_, ?_⟩
    · rw [hpick]
    · exact (List.mem_filter.mp hgmem).1
    · simpa using (List.mem_filter.mp hgmem).2
    · exact pairwise_le_getLast _ (hsort.filter _) kv hmem hne
    · show (pickSubEvent cfg.subEvents n).bind (fun kv => soundsGet cfg.sounds kv.2)
          = soundsGet cfg.sounds g.2
      rw [hpick]
      rfl

/-- C9 (witness): the theorem applied to the configuration of the
source's own `test_sub_events` test at n = 10, which is below the
smallest threshold 20: the request resolves to nothing. -/
theorem C9_sub_event_witness :
    ([(20, "s20"), (60, "s60"), (80, "s80"), (100, "s100")] : List (Nat × String)).Pairwise
      (fun a b => a.1 < b.1) ∧
    (∀ kv ∈ ([(20, "s20"), (60, "s60"), (80, "s80"), (100, "s100")] : List (Nat × String)),
      10 < kv.1) ∧
    to_file (.subEvent 10)
      ⟨"cmd", [("s20", "f20")], [(20, "s20"), (60, "s60"), (80, "s80"), (100, "s100")]⟩
      = none :=
  ⟨by decide, by decide,
   ((C9_sub_event
      ⟨"cmd", [("s20", "f20")], [(20, "s20"), (60, "s60"), (80, "s80"), (100, "s100")]⟩
      10 (by decide)).1 (by decide)).1⟩

theorem elevate_senderId (db : Db) (m : Message) :
    (elevate db m).senderId = m.senderId := by
  unfold elevate
  split <;> rfl

theorem elevate_command (db : Db) (m : Message) :
    (elevate db m).command = m.command := by
  unfold elevate
  split <;> rfl

theorem dispatch_denied_frame (cfg : ConfigM) (st' : CmdState) (msg' : Message)
    (now : Int) (req : Privilege)
    (hreq : requiredPrivilege msg'.command = some req)
    (hlow : msg'.privilege.toNat < req.toNat) :
    (dispatch cfg st' msg' now).effects = [] ∧
    (dispatch cfg st' msg' now).state = st' ∧
    ((dispatch cfg st' msg' now).replies = [some permissionDenied] ∨
     ((∃ g, msg'.command = .game g) ∧ st'.mode = .Streaming ∧
      (dispatch cfg st' msg' now).replies
        = [some "Cannot start game in streaming mode, change mode first"])) := by
  cases hcmd : msg'.command <;> rw [hcmd] at hreq <;>
    simp only [requiredPrivilege, Option.some.injEq] at hreq <;>
    try exact absurd hreq (fun hc => Option.noConfusion hc)
  case setAnarchyMode am =>
    subst hreq
    unfold dispatch
    rw [hcmd]
    simp only
    rw [if_neg (by omega)]
    exact ⟨rfl, rfl, Or.inl rfl⟩
  case setCooldown cd =>
    subst hreq
    unfold dispatch
    rw [hcmd]
    simp only
    rw [if_neg (by omega)]
    exact ⟨rfl, rfl, Or.inl rfl⟩
  case block user untilTime =>
    subst hreq
    unfold dispatch
    rw [hcmd]
    simp only
    rw [if_neg (by omega)]
    exact ⟨rfl, rfl, Or.inl rfl⟩
  case unblock user =>
    subst hreq
    unfold dispatch
    rw [hcmd]
    simp only
    rw [if_neg (by omega)]
    exact ⟨rfl, rfl, Or.inl rfl⟩
  case addOperator user =>
    subst hreq
    unfold dispatch
    rw [hcmd]
    simp only
    rw [if_neg (by omega)]
    exact ⟨rfl, rfl, Or.inl rfl⟩
  case removeOperator user =>
    subst hreq
    unfold dispatch
    rw [hcmd]
    simp only
    rw [if_neg (by omega)]
    exact ⟨rfl, rfl, Or.inl rfl⟩
  case game g =>
    subst hreq
    unfold dispatch
    rw [hcmd]
    simp only
    by_cases hmode : st'.mode = AnarchyType.Streaming
    · rw [if_pos hmode]
      exact ⟨rfl, rfl, Or.inr ⟨⟨g, rfl⟩, hmode, rfl⟩⟩
    · rw [if_neg hmode, if_neg (by omega)]
      exact ⟨rfl, rfl, Or.inl rfl⟩
  case stop =>
    subst hreq
    unfold dispatch
    rw [hcmd]
    simp only
    rw [if_neg (by omega)]
    exact ⟨rfl, rfl, Or.inl rfl⟩
  case saveState =>
    subst hreq
    unfold dispatch
    rw [hcmd]
    simp only
    rw [if_neg (by omega)]
    exact ⟨rfl, rfl, Or.inl rfl⟩
  case loadState =>
    subst hreq
    unfold dispatch
    rw [hcmd]
    simp only
    rw [if_neg (by omega)]
    exact ⟨rfl, rfl, Or.inl rfl⟩
  case reset =>
    subst hreq
    unfold dispatch
    rw [hcmd]
    simp only
    rw [if_neg (by omega)]
    exact ⟨rfl, rfl, Or.inl rfl⟩
  case playSfx sfx =>
    subst hreq
    unfold dispatch
    rw [hcmd]
    simp only
    rw [if_neg (by omega)]
    exact ⟨rfl, rfl, Or.inl rfl⟩

/-- C10 (counterexample): the claim is false on the code.  A fresh
Standard sender issuing `Game("x")` while the mode is Streaming has
effective privilege below the required Moderator, yet (1) the loop's
unconditional upsert inserts the sender into the `users` table (durable
state changes) and (2) the reply is the streaming-mode refusal, not the
permission-denied message. -/
theorem C10_counterexample :
    requiredPrivilege (Command.game "x") = some .Moderator ∧
    (elevate (update_user ⟨[], [], [], [], []⟩ "u1" "alice")
        ⟨.game "x", "u1", "alice", .Standard⟩).privilege.toNat
      < Privilege.Moderator.toNat ∧
    (handleMessage ⟨[], false⟩ ⟨.Streaming, 0, none, ⟨[], [], [], [], []⟩⟩
        ⟨.game "x", "u1", "alice", .Standard⟩ 0).replies
      = [some "Cannot start game in streaming mode, change mode first"] ∧
    (handleMessage ⟨[], false⟩ ⟨.Streaming, 0, none, ⟨[], [], [], [], []⟩⟩
        ⟨.game "x", "u1", "alice", .Standard⟩ 0).state.db.users = [("u1", "alice")] ∧
    (⟨[], [], [], [], []⟩ : Db).users = [] ∧
    (handleMessage ⟨[], false⟩ ⟨.Streaming, 0, none, ⟨[], [], [], [], []⟩⟩
        ⟨.game "x", "u1", "alice", .Standard⟩ 0).replies
      ≠ [some permissionDenied] := by
  refine ⟨rfl, by decide, by decide, by decide, rfl, by decide⟩

/-- C10 (amended): when a sender whose effective (possibly elevated)
privilege is below the level a guarded command (SetAnarchyMode,
SetCooldown, Block, Unblock, AddOperator, RemoveOperator, Game, Stop,
SaveState, LoadState, Reset, PlaySfx) requires issues it, no
MovementPacket, GameRunner command or SfxRequest is emitted, and the
in-memory mode, cooldown and current-game pointer and the durable
operators, blocked_users and config_kv tables are unchanged; the `users`
table changes only by the loop's unconditional upsert of the sender, and
`last_command_time` only by the Democracy cooldown gate's own update; the
single reply is the permission-denied message, except that a rejection by
the Restricted or cooldown gate replies None, and a Game command in
Streaming mode gets the streaming-mode refusal. -/
theorem C10_denied_frame (cfg : ConfigM) (st : CmdState) (msg : Message) (now : Int)
    (req : Privilege)
    (hreq : requiredPrivilege msg.command = some req)
    (hlow : (elevate (update_user st.db msg.senderId msg.senderName) msg).privilege.toNat
      < req.toNat) :
    (handleMessage cfg st msg now).effects = [] ∧
    (handleMessage cfg st msg now).state.mode = st.mode ∧
    (handleMessage cfg st msg now).state.cooldown = st.cooldown ∧
    (handleMessage cfg st msg now).state.currentGame = st.currentGame ∧
    (handleMessage cfg st msg now).state.db.operators = st.db.operators ∧
    (handleMessage cfg st msg now).state.db.blockedUsers = st.db.blockedUsers ∧
    (handleMessage cfg st msg now).state.db.configKv = st.db.configKv ∧
    (handleMessage cfg st msg now).state.db.users
      = (update_user st.db msg.senderId msg.senderName).users ∧
    ((handleMessage cfg st msg now).state.db.lastCommandTime = st.db.lastCommandTime ∨
     (handleMessage cfg st msg now).state.db.lastCommandTime
       = aupsert st.db.lastCommandTime msg.senderId now) ∧
    ((handleMessage cfg st msg now).replies = [some permissionDenied] ∨
     (handleMessage cfg st msg now).replies = [none] ∨
     ((∃ g, msg.command = .game g) ∧ st.mode = .Streaming ∧
      (handleMessage cfg st msg now).replies
        = [some "Cannot start game in streaming mode, change mode first"])) := by
  have hreq1 : requiredPrivilege
      (elevate (update_user st.db msg.senderId msg.senderName) msg).command = some req := by
    rw [elevate_command]
    exact hreq
  have hsid : (elevate (update_user st.db msg.senderId msg.senderName) msg).senderId
      = msg.senderId := elevate_senderId _ _
  unfold handleMessage
  dsimp only
  split_ifs with h1 h2 h3
  · exact ⟨rfl, rfl, rfl, rfl, rfl, rfl, rfl, rfl, Or.inl rfl, Or.inr (Or.inl rfl)⟩
  · obtain ⟨he, hst, hrep⟩ := dispatch_denied_frame cfg
      { st with db := (test_and_set_cooldown_lapsed
          (update_user st.db msg.senderId msg.senderName)
          (elevate (update_user st.db msg.senderId msg.senderName) msg).senderId
          st.cooldown now).1 }
      (elevate (update_user st.db msg.senderId msg.senderName) msg) now req hreq1 hlow
    refine ⟨he, by rw [hst], by rw [hst], by rw [hst], by rw [hst]; rfl,
      by rw [hst]; rfl, by rw [hst]; rfl, by rw [hst]; rfl,
      Or.inr (by rw [hst, hsid]; rfl), ?_⟩
    rcases hrep with hrep | ⟨⟨g, hg⟩, hmode, hrep⟩
    · exact Or.inl hrep
    · rw [elevate_command] at hg
      exact Or.inr (Or.inr ⟨⟨g, hg⟩, hmode, hrep⟩)
  · exact ⟨rfl, rfl, rfl, rfl, rfl, rfl, rfl, rfl, Or.inr (by rw [hsid]; rfl),
      Or.inr (Or.inl rfl)⟩
  · obtain ⟨he, hst, hrep⟩ := dispatch_denied_frame cfg
      { st with db := update_user st.db msg.senderId msg.senderName }
      (elevate (update_user st.db msg.senderId msg.senderName) msg) now req hreq1 hlow
    refine ⟨he, by rw [hst]; try rfl, by rw [hst]; try rfl, by rw [hst]; try rfl,
      by rw [hst]; try rfl, by rw [hst]; try rfl, by rw [hst]; try rfl,
      by rw [hst]; try rfl, Or.inl (by rw [hst]; try rfl), ?_⟩
    rcases hrep with hrep | ⟨⟨g, hg⟩, hmode, hrep⟩
    · exact Or.inl hrep
    · rw [elevate_command] at hg
      exact Or.inr (Or.inr ⟨⟨g, hg⟩, hmode, hrep⟩)

/-- C10 (witness): the amended theorem applied to a fresh Standard sender
issuing `tp stop` with mode Democracy and cooldown 0: no effects, and the
users table afterwards is exactly the upserted sender. -/
theorem C10_denied_frame_witness :
    requiredPrivilege Command.stop = some .Moderator ∧
    (elevate (update_user ⟨[], [], [], [], []⟩ "u1" "alice")
        ⟨.stop, "u1", "alice", .Standard⟩).privilege.toNat
      < Privilege.Moderator.toNat ∧
    (handleMessage ⟨[], false⟩ ⟨.Democracy, 0, none, ⟨[], [], [], [], []⟩⟩
        ⟨.stop, "u1", "alice", .Standard⟩ 0).effects = [] ∧
    (handleMessage ⟨[], false⟩ ⟨.Democracy, 0, none, ⟨[], [], [], [], []⟩⟩
        ⟨.stop, "u1", "alice", .Standard⟩ 0).state.db.users
      = (update_user (⟨[], [], [], [], []⟩ : Db) "u1" "alice").users :=
  ⟨rfl, by decide,
   (C10_denied_frame ⟨[], false⟩ ⟨.Democracy, 0, none, ⟨[], [], [], [], []⟩⟩
     ⟨.stop, "u1", "alice", .Standard⟩ 0 .Moderator rfl (by decide)).1,
   (C10_denied_frame ⟨[], false⟩ ⟨.Democracy, 0, none, ⟨[], [], [], [], []⟩⟩
     ⟨.stop, "u1", "alice", .Standard⟩ 0 .Moderator rfl (by decide)).2.2.2.2.2.2.2.1⟩

end TwitchGamepad
